import Mathlib

/-!
# kthoom tools: reading-order resolution, page sequencing, comic page lists

A shallow embedding of the Go packages `tools/modules/archives`,
`tools/modules/books/epub`, `tools/modules/books/comic` and of the page sort in
`tools/desadulate`, with the properties of the ordering algorithm proved over it.

Conventions of the embedding:

* Go strings are `String`; Go slices are `List`; `append` is `++ [x]`.
* A Go pointer that may be nil is an `Option`; dereferencing `none` is the
  outcome `Result.panic`.
* A Go `error` return value is a `Result`: `Result.nil`, `Result.err msg`
  (the text of the error), or `Result.panic` for a run-time panic.
* Functions that mutate the book through a pointer return the mutated book
  next to their `Result`, so that what was written before an error is visible.
* `map[string]bool` whose only stored value is `true` is the list of its keys
  (`GoMap`); `range` over it enumerates the keys in an order chosen by the
  run time (`RangeOrder`).
* `sort.Slice` and `sort.Strings` are not stable: where they leave elements that
  compare as equal is chosen by a `SliceOrder`.
* `strings.ToLower` lowers ASCII letters by arithmetic and looks every other
  character up in the Unicode case table, which is a field of `Env`.
* Writes to `outWriter`, `errWriter` and standard output are not modelled.
* The file system, the XML decoder and the HTML tokenizer are read through an
  `Env`; what `ExtractArchive` reads and runs goes through an `ExtractEnv`.
-/

namespace Kthoom

/-- A Go call that returns a value together with an `error`: the value when the
error is nil, the text of the error otherwise. -/
inductive Try (α : Type) where
  | ok (a : α)
  | fail (msg : String)
  deriving DecidableEq, Repr

/-! ## Go library: `path` and `path/filepath` on a Unix system -/

namespace path

/-- The elements of a path between its slashes: `a/b` gives `a`, `b`; a leading
slash gives a leading empty element. -/
def splitSlash : List Char → List (List Char)
  | [] => [[]]
  | c :: cs =>
    match splitSlash cs with
    | [] => [[c]]
    | h :: t => if c = '/' then [] :: h :: t else (c :: h) :: t

/-- Joins elements with single slashes. -/
def joinSlash : List (List Char) → List Char
  | [] => []
  | [e] => e
  | e :: es => e ++ '/' :: joinSlash es

/-- One element of `Clean`: the stack holds the kept elements, last first. Empty
and `.` elements are dropped; `..` removes the element before it when there is
one that is not itself `..`, is dropped at the root, and is kept otherwise. -/
def cleanStep (rooted : Bool) (stack : List (List Char)) (e : List Char) : List (List Char) :=
  if e = [] ∨ e = ['.'] then stack
  else if e = ['.', '.'] then
    match stack with
    | [] => if rooted then [] else [e]
    | top :: rest => if top = ['.', '.'] then e :: stack else rest
  else e :: stack

/-- Go `path.Clean` on the characters of a path. -/
def cleanChars (p : List Char) : List Char :=
  let rooted := p.head? = some '/'
  let body := joinSlash ((splitSlash p).foldl (cleanStep rooted) []).reverse
  let out := if rooted then '/' :: body else body
  if out = [] then ['.'] else out

/-- Go `path.Clean`: the shortest path name equivalent to `p` by purely lexical
processing. -/
def Clean (p : String) : String := String.mk (cleanChars p.data)

/-- Go `path.IsAbs`: the path begins with a slash. -/
def IsAbs (p : String) : Bool := p.data.head? = some '/'

/-- Go `path.Join` of two elements: empty elements are ignored, the rest is
joined with a slash and cleaned; two empty elements give the empty string. -/
def Join (a b : String) : String :=
  if a ≠ "" then Clean (String.mk (a.data ++ '/' :: b.data))
  else if b ≠ "" then Clean b
  else ""

/-- Everything up to and including the last slash of a path. -/
def dirPart (p : List Char) : List Char :=
  (p.reverse.dropWhile (fun c => c ≠ '/')).reverse

/-- Go `path.Dir`: all but the last element of the path, cleaned. -/
def Dir (p : String) : String := String.mk (cleanChars (dirPart p.data))

end path

namespace filepath

/-- Go `filepath.Clean` (Unix). -/
def Clean (p : String) : String := path.Clean p

/-- Go `filepath.IsAbs` (Unix). -/
def IsAbs (p : String) : Bool := path.IsAbs p

/-- Go `filepath.Join` (Unix) of two elements. -/
def Join (a b : String) : String := path.Join a b

/-- Go `filepath.Dir` (Unix). -/
def Dir (p : String) : String := path.Dir p

/-- The elements of a cleaned path as `Rel` walks them: none for the empty
path, one empty element for the root. -/
def elements (p : List Char) : List (List Char) :=
  if p = [] then [] else if p = ['/'] then [[]] else path.splitSlash p

/-- Drops the leading elements two paths have in common. -/
def dropCommon : List (List Char) → List (List Char) → List (List Char) × List (List Char)
  | b :: bs, t :: ts => if b = t then dropCommon bs ts else (b :: bs, t :: ts)
  | bs, ts => (bs, ts)

/-- Go `filepath.Rel` (Unix): a path that, joined to `basepath`, names
`targpath`; an error when one path is rooted and the other is not, or when the
base would have to be left through a `..` element of unknown meaning. -/
def Rel (basepath targpath : String) : Try String :=
  let base := path.cleanChars basepath.data
  let targ := path.cleanChars targpath.data
  let fail : Try String :=
    .fail ("Rel: can't make " ++ targpath ++ " relative to " ++ basepath)
  if targ = base then .ok "."
  else
    let base := if base = ['.'] then [] else base
    if (base.head? = some '/') ≠ (targ.head? = some '/') then fail
    else
      match dropCommon (elements base) (elements targ) with
      | (b :: bs, t :: ts) =>
        if b = ['.', '.'] then fail
        else .ok (String.mk (path.joinSlash ((b :: bs).map (fun _ => ['.', '.']) ++ t :: ts)))
      | (b :: bs, []) => .ok (String.mk (path.joinSlash ((b :: bs).map (fun _ => ['.', '.']))))
      | ([], ts) => .ok (String.mk (path.joinSlash ts))

/-- The scan of `Ext` from the end of the path: `rest` is what lies before the
scan, last character first, and `seen` what the scan has passed. -/
def extScan : List Char → List Char → List Char
  | [], _ => []
  | c :: rest, seen =>
    if c = '/' then []
    else if c = '.' then '.' :: seen
    else extScan rest (c :: seen)

/-- Go `filepath.Ext`: the suffix beginning at the final dot in the final element
of the path, empty if there is no dot. -/
def Ext (p : String) : String := String.mk (extScan p.data.reverse [])

end filepath

/-- Go `len` of a string: its number of bytes. -/
def len (s : String) : Nat := (s.data.map Char.utf8Size).sum

/-! ## Go library: `strings` and `sort` -/

namespace strings

/-- Go `unicode.ToLower`: an ASCII letter is lowered by arithmetic, and every
other character is looked up in the Unicode case table, which is taken as the
parameter `table`. -/
def lowerRune (table : Char → Char) (c : Char) : Char :=
  if c.toNat < 128 then Char.toLower c else table c

/-- Go `strings.ToLower`: every character of the string through
`unicode.ToLower`. -/
def ToLower (table : Char → Char) (s : String) : String :=
  String.mk (s.data.map (lowerRune table))

end strings

/-- What an unstable sort is free to do: the order in which it leaves elements
that its comparison does not tell apart, given as a rearrangement of the slice
made before a stable sort. -/
structure SliceOrder where
  arrange : List String → List String
  perm : ∀ x : List String, (arrange x).Perm x

namespace sort

/-- Go `sort.Slice`: rearranges the slice into an order in which no element is
`less` than one before it. The sort is not stable: elements that `less` does not
tell apart may come out in any order. Every such outcome is the insertion sort
of some rearrangement of the slice, and `ties` is the rearrangement the library
happens to make. -/
def Slice (ties : SliceOrder) (x : List String) (less : String → String → Bool) :
    List String :=
  (ties.arrange x).insertionSort (fun a b => ¬ less b a = true)

/-- Go `sort.Strings`: `sort.Slice` with `<` on strings, which compares them
byte by byte; on the characters of the strings that is the same order. -/
def Strings (ties : SliceOrder) (x : List String) : List String :=
  Slice ties x (fun a b => decide (a.data < b.data))

end sort

/-! ## Outcomes, maps, and the environment -/

/-- The `error` a Go function returns, with one more outcome for a run-time
panic (a nil pointer dereference or an index out of range), which returns
nothing to the caller. -/
inductive Result where
  | nil
  | err (msg : String)
  | panic
  deriving DecidableEq, Repr

/-- A `map[string]bool` in which every stored value is `true`: its keys, each
once. -/
abbrev GoMap := List String

namespace GoMap

/-- The statement `m[k] = true`. -/
def set (m : GoMap) (k : String) : GoMap := if k ∈ m then m else m ++ [k]

/-- The expression `m[k]`: the stored `true`, or `false` for an absent key. -/
def get (m : GoMap) (k : String) : Bool := decide (k ∈ m)

/-- The statement `delete(m, k)`. -/
def delete (m : GoMap) (k : String) : GoMap := m.filter (fun x => x ≠ k)

end GoMap

/-- The order in which one `range` loop visits the keys of a map. Go leaves it
unspecified and varies it from run to run; all that is known is that every key
is visited once. -/
structure RangeOrder where
  keys : GoMap → List String
  perm : ∀ m : GoMap, (keys m).Perm m

/-! ## Package `archives` -/

inductive ArchiveType where
  | Unknown
  | ComicBook
  | EPub
  deriving DecidableEq, Repr

structure Archive where
  ArchiveFilename : String
  ArchiveType : Kthoom.ArchiveType
  TmpDir : String
  Files : List String
  deriving DecidableEq, Repr

/-! ## Package `html` (golang.org/x/net/html): tokens -/

/-- The kinds of token the tokenizer yields before its final `ErrorToken`. -/
inductive TokenType where
  | TextToken
  | StartTagToken
  | EndTagToken
  | SelfClosingTagToken
  | CommentToken
  | DoctypeToken
  deriving DecidableEq, Repr

structure Attribute where
  Namespace : String
  Key : String
  Val : String
  deriving DecidableEq, Repr

/-- A token of a document: what `tokenizer.Next()` and `tokenizer.Token()`
return for it. -/
structure Token where
  Kind : TokenType
  Data : String
  Attr : List Attribute
  deriving DecidableEq, Repr

/-- A whole run of the tokenizer over a document: the tokens before the
`ErrorToken`, and `tokenizer.Err()` at that point, `none` standing for
`io.EOF`. -/
structure TokenStream where
  tokens : List Token
  err : Option String
  deriving DecidableEq, Repr

/-! ## Package `epub`: data model -/

structure RootFile where
  FullPath : String
  MediaType : String
  deriving DecidableEq, Repr

structure RootFiles where
  RootFile : List Kthoom.RootFile
  deriving DecidableEq, Repr

structure Container where
  RootFiles : Option Kthoom.RootFiles
  deriving DecidableEq, Repr

structure Itemref where
  Idref : String
  Linear : String
  deriving DecidableEq, Repr

structure Spine where
  Itemref : List Kthoom.Itemref
  deriving DecidableEq, Repr

structure Item where
  Href : String
  Id : String
  MediaType : String
  deriving DecidableEq, Repr

structure Manifest where
  Item : List Kthoom.Item
  deriving DecidableEq, Repr

/-- The package descriptor. The fields that only pass through to the rewritten
descriptor (`Metadata`, `AnyNodes`, `ArchiveFileInfo`) are read by none of the
functions below and are left out. -/
structure Package where
  Manifest : Option Kthoom.Manifest
  Spine : Option Kthoom.Spine
  PackageFilename : String
  deriving DecidableEq, Repr

structure Book where
  Archive : Kthoom.Archive
  Container : Option Kthoom.Container
  Package : Option Kthoom.Package
  MimetypeFilename : String
  ContainerFilename : String
  RootFilename : String
  ItemFilename : List String
  OrderedFiles : List String
  deriving DecidableEq, Repr

/-! ## Packages `metadata` and `comic`: data model -/

structure ArchiveFileInfo where
  OptimizedForStreaming : String
  deriving DecidableEq, Repr

namespace comic

/-- The comic metadata record, without the attributes and nodes that only pass
through. -/
structure ComicInfo where
  ArchiveFileInfo : Option Kthoom.ArchiveFileInfo
  deriving DecidableEq, Repr

structure Book where
  Archive : Kthoom.Archive
  MetadataFilename : String
  Metadata : Option ComicInfo
  PageFiles : List String
  deriving DecidableEq, Repr

end comic

/-- What the code reads from outside: `ioutil.ReadFile` on an absolute path,
`xml.Unmarshal` into a fresh `Container`, into a `Package` whose
`PackageFilename` is already set and into a fresh `ComicInfo`, the HTML
tokenizer run over the bytes of a document, and the Unicode case table that
`strings.ToLower` looks characters outside ASCII up in. -/
structure Env where
  ReadFile : String → Try String
  UnmarshalContainer : String → Try Container
  UnmarshalPackage : String → Package → Try Package
  UnmarshalComicInfo : String → Try comic.ComicInfo
  Tokenize : String → TokenStream
  LowerCase : Char → Char

/-! ## Package `archives`: functions -/

def HasFile (archive : Archive) (relPath : String) : Bool :=
  let fullPath := filepath.Join archive.TmpDir relPath
  archive.Files.any (fun path => path = fullPath)

def ReadFileFromArchive (env : Env) (archive : Archive) (relPath : String) : Try String :=
  let absPath := filepath.Join archive.TmpDir relPath
  match env.ReadFile absPath with
  | .fail readErr =>
    .fail ("Could not read file from archive " ++ archive.ArchiveFilename ++ ": " ++ readErr)
  | .ok fileContents => .ok fileContents

/-- Go `getArchiveType`. The bytes `ext[1]` and `ext[2]` are compared with ASCII
letters, so they are the second and third character of the extension whenever
the comparison holds. -/
def getArchiveType (archive : Archive) : ArchiveType :=
  -- If the archive has a META-INF/container.xml in it, it's probably an EPub.
  if HasFile archive "META-INF/container.xml" then .EPub
  else
    -- Otherwise, if it ends in .cb? then it's probably a ComicBook.
    let ext := filepath.Ext archive.ArchiveFilename
    if len ext = 4 ∧ ext.data.get? 1 = some 'c' ∧ ext.data.get? 2 = some 'b' then .ComicBook
    else
      -- Otherwise, Unknown.
      .Unknown

/-- A comic extension: a dot, `c`, `b` and one more one-byte character, four
bytes in all, as in `.cbz` and `.cbr`. -/
def IsComicExt (ext : String) : Prop :=
  ∃ x : Char, x.utf8Size = 1 ∧ ext = String.mk ['.', 'c', 'b', x]

/-- An `exec.Cmd` as `exec.Command` builds it and `ExtractArchive` configures
it; the output writers are left out. -/
structure Cmd where
  Path : String
  Args : List String
  Dir : String
  deriving DecidableEq, Repr

namespace exec

/-- Go `exec.Command`: the arguments start with the name of the command. -/
def Command (name : String) (arg : List String) : Cmd :=
  { Path := name, Args := name :: arg, Dir := "" }

end exec

/-- The first four bytes of the archive file. -/
structure Header where
  b0 : Nat
  b1 : Nat
  b2 : Nat
  b3 : Nat
  deriving DecidableEq, Repr

/-- The error of `cmd.Run`: an `*exec.ExitError` with its exit code, or another
error; both with their text. -/
inductive RunError where
  | exit (code : Int) (text : String)
  | other (text : String)
  deriving DecidableEq, Repr

/-- What `filepath.Walk` hands to its function for one entry: a file, a
directory, or an entry with an error. -/
inductive WalkEntry where
  | file (f : String)
  | dir (f : String)
  | failed (f : String) (err : String)
  deriving DecidableEq, Repr

/-- What `ExtractArchive` reads from outside: `ioutil.TempDir`, `os.Open`,
`io.ReadFull` of the header, `cmd.Run`, and the entries `filepath.Walk` visits
under the temporary directory. -/
structure ExtractEnv where
  TempDir : Try String
  Open : String → Try Unit
  ReadFull : String → Try Header
  Run : Cmd → Option RunError
  Walk : String → List WalkEntry

/-- The files the function given to `filepath.Walk` appends: every entry that is
not a directory, up to the first entry with an error, at which the function
returns the error and the walk ends. -/
def walkFiles : List WalkEntry → List String
  | [] => []
  | .file f :: rest => f :: walkFiles rest
  | .dir _ :: rest => walkFiles rest
  | .failed _ _ :: _ => []

/-- The command the byte sniffing of `ExtractArchive` selects; `none` is the nil
`*exec.Cmd` that `var cmd *exec.Cmd` starts as. -/
def sniffCommand (header : Header) (path : String) : Option Cmd :=
  if header.b0 = 0x52 ∧ header.b1 = 0x61 ∧ header.b2 = 0x72 ∧ header.b3 = 0x21 then -- Rar!
    some (exec.Command "unrar" ["x", path])
  else if header.b0 = 0x50 ∧ header.b1 = 0x4B then -- PK (Zip)
    some (exec.Command "unzip" [path])
  else none

def ExtractArchive (env : ExtractEnv) (path : String) : Option Archive × Result :=
  match env.TempDir with
  | .fail err => (none, .err err)
  | .ok tmpdir =>
    -- Some archive files have incorrect extensions, so we cannot rely on them.  We need
    -- to do some byte sniffing instead.
    match env.Open path with
    | .fail err => (none, .err err)
    | .ok _ =>
      match env.ReadFull path with
      | .fail err => (none, .err err)
      | .ok header =>
        match sniffCommand header path with
        | none => (none, .panic)
        | some cmd =>
          let cmd := { cmd with Dir := tmpdir }
          let theArchive : Archive :=
            { ArchiveFilename := path, ArchiveType := .Unknown, TmpDir := tmpdir,
              Files := walkFiles (env.Walk tmpdir) }
          let extracted : Option Archive × Result :=
            (some { theArchive with ArchiveType := getArchiveType theArchive }, .nil)
          match env.Run cmd with
          | none => extracted
          | some (.exit code text) =>
            -- If the error was not an ExitError, or the error code was not 3 (unrar CRC
            -- error code), we bail. Otherwise we continue trying to process the
            -- unarchived files.
            if code ≠ 3 then (none, .err (path ++ " had an error: " ++ text))
            else extracted
          | some (.other text) => (none, .err (path ++ " had an error: " ++ text))

/-- A message names a text when the text occurs in it. -/
def Contains (msg part : String) : Prop := part.data <:+: msg.data

instance (msg part : String) : Decidable (Contains msg part) := by
  unfold Contains
  infer_instance

/-! ## Package `epub`: functions -/

/-- The state a loop of `CreateOrderedBook` or `processHtml` works on, and how
it ended: the book behind the pointer, the map of unassigned files, and the
error returned (`Result.nil` when the loop ran to its end). -/
structure Run where
  book : Book
  files : GoMap
  result : Result
  deriving DecidableEq, Repr

/-- Populates the container, rootfile, and item files. -/
def populateFromXml (env : Env) (book : Book) : Book × Result :=
  match ReadFileFromArchive env book.Archive "META-INF/container.xml" with
  | .fail readErr => (book, .err readErr)
  | .ok containerXml =>
    let book := { book with
      ContainerFilename := filepath.Join book.Archive.TmpDir "META-INF/container.xml"
      Container := some { RootFiles := none } }
    match env.UnmarshalContainer containerXml with
    | .fail unMarshalErr => (book, .err unMarshalErr)
    | .ok container =>
      let book := { book with Container := some container }
      match container.RootFiles with
      | none => (book, .panic)
      | some rootFiles =>
        if rootFiles.RootFile.length ≠ 1 then
          (book, .err (book.Archive.ArchiveFilename
            ++ " Container.rootfiles had wrong number of <rootfile> elements"))
        else
          match rootFiles.RootFile.head? with
          | none => (book, .panic)
          | some rootFile =>
            let rootFilename := rootFile.FullPath
            let book := { book with
              RootFilename := filepath.Join book.Archive.TmpDir rootFilename }
            match ReadFileFromArchive env book.Archive rootFilename with
            | .fail rootErr => (book, .err rootErr)
            | .ok rootXml =>
              let fresh : Package :=
                { Manifest := none, Spine := none, PackageFilename := rootFilename }
              let book := { book with Package := some fresh }
              match env.UnmarshalPackage rootXml fresh with
              | .fail unMarshalErr => (book, .err unMarshalErr)
              | .ok pkg =>
                let book := { book with Package := some pkg }
                -- By default, all files are added to the ItemFilename slice.
                let items := book.Archive.Files.filter (fun file =>
                  file ≠ book.MimetypeFilename ∧ file ≠ book.ContainerFilename
                    ∧ file ≠ book.RootFilename)
                ({ book with ItemFilename := book.ItemFilename ++ items }, .nil)

/-- Go `ExtractBookFromArchive` of package `epub`: the book, or `none` (the nil
book) with the error. -/
def ExtractBookFromArchive (env : Env) (theArchive : Archive) : Option Book × Result :=
  let book : Book :=
    { Archive := theArchive, Container := none, Package := none, MimetypeFilename := "",
      ContainerFilename := "", RootFilename := "", ItemFilename := [], OrderedFiles := [] }
  -- Ensure mimetype file exists.
  match ReadFileFromArchive env book.Archive "mimetype" with
  | .fail mimeErr => (none, .err mimeErr)
  | .ok mimetype =>
    if mimetype ≠ "application/epub+zip" then
      (none, .err ("No EPUB mimetype found in " ++ theArchive.ArchiveFilename ++ "\n"))
    else
      let book := { book with MimetypeFilename := filepath.Join book.Archive.TmpDir "mimetype" }
      -- Ensure META-INF/container.xml file exists.
      if ¬ HasFile theArchive "META-INF/container.xml" then
        (none, .err ("No container.xml found in " ++ theArchive.ArchiveFilename ++ "\n"))
      else
        match populateFromXml env book with
        | (book, .nil) => (some book, .nil)
        | (_, populateErr) => (none, populateErr)

/-- Go `getResourceById`: `some (some item)` for the first manifest item with
the id, `some none` for the nil item, and `none` when the package or its
manifest is a nil pointer and the lookup panics. -/
def getResourceById (book : Book) (id : String) : Option (Option Item) :=
  match book.Package with
  | none => none
  | some pkg =>
    match pkg.Manifest with
    | none => none
    | some manifest => some (manifest.Item.find? (fun item => item.Id = id))

def getAttr (token : Token) (attrName : String) : String :=
  match token.Attr.find? (fun a => a.Key = attrName) with
  | some a => a.Val
  | none => ""

def addResourceToBook (book : Book) (resourceURL : String) (baseURL : String)
    (allFilesMap : GoMap) : Book × GoMap :=
  -- Resolve the URL.
  let resourceIRI :=
    if ¬ path.IsAbs resourceURL then path.Join baseURL resourceURL else resourceURL
  -- Then make it into a file path.
  let resourceIRI := filepath.Join book.Archive.TmpDir resourceIRI
  if allFilesMap.get resourceIRI then
    ({ book with OrderedFiles := book.OrderedFiles ++ [resourceIRI] },
      allFilesMap.delete resourceIRI)
  else (book, allFilesMap)

/-- The resource URL one token of `processHtml` settles on, the empty string
when it settles on none: the `switch` on the token type, up to the call of
`addResourceToBook`. -/
def tokenResourceURL (token : Token) : String :=
  match token.Kind with
  | .StartTagToken =>
    if token.Data = "picture" then
      let srcsetVal := getAttr token "srcset"
      if srcsetVal ≠ "" then srcsetVal else ""
    else ""
  | .SelfClosingTagToken =>
    if token.Data = "img" then
      let srcVal := getAttr token "src"
      if srcVal ≠ "" then srcVal else ""
    else if token.Data = "link" then
      let relVal := getAttr token "rel"
      let hrefVal := getAttr token "href"
      if relVal = "stylesheet" ∧ hrefVal ≠ "" then hrefVal else ""
    else ""
  | _ => ""

/-- One turn of the token loop of `processHtml`. -/
def processToken (baseURL : String) (state : Book × GoMap) (token : Token) : Book × GoMap :=
  let resourceURL := tokenResourceURL token
  if resourceURL ≠ "" then addResourceToBook state.1 resourceURL baseURL state.2
  else state

def processHtml (env : Env) (book : Book) (itemIRI : String) (allFilesMap : GoMap) : Run :=
  match filepath.Rel book.Archive.TmpDir itemIRI with
  | .fail relErr => ⟨book, allFilesMap, .err relErr⟩
  | .ok relIRI =>
    let baseURL := path.Dir relIRI
    match ReadFileFromArchive env book.Archive relIRI with
    | .fail readErr => ⟨book, allFilesMap, .err readErr⟩
    | .ok htmlDoc =>
      let stream := env.Tokenize htmlDoc
      let state := stream.tokens.foldl (processToken baseURL) (book, allFilesMap)
      match stream.err with
      | none => ⟨state.1, state.2, .nil⟩
      | some err => ⟨state.1, state.2, .err ("Error tokenizing HTML: " ++ err)⟩

/-- The path a manifest item resolves to: its href, taken relative to the
directory of the package descriptor unless absolute, under the temporary
directory. -/
def resolveItemIRI (book : Book) (baseIRI : String) (item : Item) : String :=
  let itemIRI := item.Href
  let itemIRI := if ¬ filepath.IsAbs itemIRI then filepath.Join baseIRI itemIRI else itemIRI
  filepath.Join book.Archive.TmpDir itemIRI

/-- The loop of `CreateOrderedBook` over the itemrefs of the spine. -/
def spineLoop (env : Env) (baseIRI : String) : List Itemref → Book → GoMap → Run
  | [], book, allFilesMap => ⟨book, allFilesMap, .nil⟩
  | itemRef :: rest, book, allFilesMap =>
    match getResourceById book itemRef.Idref with
    | none => ⟨book, allFilesMap, .panic⟩
    | some none =>
      ⟨book, allFilesMap, .err (book.Archive.ArchiveFilename
        ++ " Container is missing an item with id " ++ itemRef.Idref)⟩
    | some (some item) =>
      -- Resolves item.Href into an absolute path that matches what is in allFilesMap.
      let itemIRI := resolveItemIRI book baseIRI item
      let mediaType := item.MediaType
      let run : Run :=
        if mediaType = "application/xhtml+xml" ∨ mediaType = "text/html" then
          processHtml env book itemIRI allFilesMap
        else ⟨book, allFilesMap, .nil⟩
      match run.result with
      | .nil =>
        -- No matter what kind of item it was, add it to the ordered list and remove
        -- it from our map.
        spineLoop env baseIRI rest
          { run.book with OrderedFiles := run.book.OrderedFiles ++ [itemIRI] }
          (run.files.delete itemIRI)
      | htmlErr => ⟨run.book, run.files, htmlErr⟩

def CreateOrderedBook (env : Env) (order : RangeOrder) (book : Book) : Book × Result :=
  match book.Package with
  | none => (book, .panic)
  | some pkg =>
    let baseIRI := filepath.Dir pkg.PackageFilename
    let allFilesMap : GoMap := book.ItemFilename.foldl GoMap.set []
    match pkg.Spine with
    | none => (book, .panic)
    | some spine =>
      let run := spineLoop env baseIRI spine.Itemref book allFilesMap
      match run.result with
      | .nil =>
        -- Append any file we missed during processing to the end of OrderedFiles.
        let book := { run.book with
          OrderedFiles := run.book.OrderedFiles ++ order.keys run.files }
        -- mimetype, container and rootfile are separate from OrderedFiles.
        if book.Archive.Files.length ≠ book.OrderedFiles.length + 3 then
          (book, .err ("Failed to order "
            ++ toString ((book.OrderedFiles.length : Int) - (book.Archive.Files.length : Int))
            ++ " files for " ++ book.Archive.ArchiveFilename))
        else ({ book with ItemFilename := book.OrderedFiles }, .nil)
      | spineErr => (run.book, spineErr)

/-- The extraction rules as C9 states them: `picture` gives its `srcset`,
`img` its `src`, `link` with `rel="stylesheet"` its `href`, each when not empty,
whether the tag is a start tag or a self-closing tag. -/
def claimedRule (token : Token) : Option String :=
  if token.Kind = .StartTagToken ∨ token.Kind = .SelfClosingTagToken then
    if token.Data = "picture" ∧ getAttr token "srcset" ≠ "" then some (getAttr token "srcset")
    else if token.Data = "img" ∧ getAttr token "src" ≠ "" then some (getAttr token "src")
    else if token.Data = "link" ∧ getAttr token "rel" = "stylesheet"
        ∧ getAttr token "href" ≠ "" then some (getAttr token "href")
    else none
  else none

/-- The extraction rules as amended: `picture` written as a start tag gives its
`srcset`; `img` written as a self-closing tag gives its `src`; `link` with
`rel="stylesheet"` written as a self-closing tag gives its `href`; each when not
empty, and nothing else gives anything. -/
def extractionRule (token : Token) : Option String :=
  if token.Kind = .StartTagToken ∧ token.Data = "picture"
      ∧ getAttr token "srcset" ≠ "" then some (getAttr token "srcset")
  else if token.Kind = .SelfClosingTagToken ∧ token.Data = "img"
      ∧ getAttr token "src" ≠ "" then some (getAttr token "src")
  else if token.Kind = .SelfClosingTagToken ∧ token.Data = "link"
      ∧ getAttr token "rel" = "stylesheet" ∧ getAttr token "href" ≠ "" then
    some (getAttr token "href")
  else none

/-- Offering a list of resource URLs to `addResourceToBook`, one after the
other. -/
def offerAll (baseURL : String) (urls : List String) (state : Book × GoMap) : Book × GoMap :=
  urls.foldl (fun st url => addResourceToBook st.1 url baseURL st.2) state

/-! ## Package `comic`: functions -/

namespace comic

def filenamesToIgnore : List String := ["thumbs.db"]

def metadataFilename : String := "comicinfo.xml"

/-- One turn of the loop of `ExtractBookFromArchive` over the files. -/
def fileStep (env : Env) (book : Book) (filename : String) : Book :=
  if strings.ToLower env.LowerCase filename = metadataFilename then
    -- Keeps the original capitalization of the filename.
    { book with MetadataFilename := filename }
  else
    -- Skip any files that need ignoring.
    let ignore := filenamesToIgnore.any (fun n => strings.ToLower env.LowerCase filename = n)
    if ignore then book
    else { book with PageFiles := book.PageFiles ++ [filename] }

def findMetadata (env : Env) (book : Book) : Book × Result :=
  -- Unmarshal XML metadata.
  if book.MetadataFilename ≠ "" then
    match ReadFileFromArchive env book.Archive book.MetadataFilename with
    | .fail readErr =>
      (book, .err ("Could not read metadata file in " ++ book.Archive.ArchiveFilename
        ++ ": " ++ readErr))
    | .ok metadata =>
      let book := { book with Metadata := some { ArchiveFileInfo := none } }
      match env.UnmarshalComicInfo metadata with
      | .fail err =>
        (book, .err (book.Archive.ArchiveFilename
          ++ " had an error when unmarshalling XML: " ++ err))
      | .ok info => ({ book with Metadata := some info }, .nil)
  else (book, .nil)

/-- Go `ExtractBookFromArchive` of package `comic`: the book, or `none` (the nil
book) with the error. -/
def ExtractBookFromArchive (env : Env) (theArchive : Archive) : Option Book × Result :=
  let book : Book :=
    { Archive := theArchive, MetadataFilename := "", Metadata := none, PageFiles := [] }
  let book := book.Archive.Files.foldl (fileStep env) book
  match findMetadata env book with
  | (book, .nil) => (some book, .nil)
  | (_, .err err) =>
    (none, .err ("findMetadata() on " ++ theArchive.ArchiveFilename
      ++ " had an error: " ++ err))
  | (_, .panic) => (none, .panic)

end comic

/-! ## Command `desadulate`: the page sort -/

/-- The sort of the page files in `main`: `sort.Strings` when
`caseSensitiveSort` is set, and otherwise `sort.Slice` comparing the lowercased
names. -/
def sortPageFiles (env : Env) (ties : SliceOrder) (caseSensitiveSort : Bool)
    (PageFiles : List String) : List String :=
  if caseSensitiveSort then sort.Strings ties PageFiles
  else
    -- Default is case-insensitive sort.
    sort.Slice ties PageFiles (fun a b =>
      decide ((strings.ToLower env.LowerCase a).data < (strings.ToLower env.LowerCase b).data))

/-- The key the page sort orders by in each mode. -/
def pageKey (env : Env) (caseSensitiveSort : Bool) (filename : String) : String :=
  if caseSensitiveSort then filename else strings.ToLower env.LowerCase filename

/-! ## The ordering loop as a function of lists
The loops of `CreateOrderedBook` touch the book only in `OrderedFiles`, and what
they look up (manifest items, resolved paths, documents) does not depend on
`OrderedFiles`. The definitions below restate a run as a function of the pair
(ordered files, unassigned files); `spineLoop_eq` shows the restatement is the
code. -/

/-- The file path `addResourceToBook` resolves a resource URL to. -/
def resourceIRI (tmpDir baseURL resourceURL : String) : String :=
  filepath.Join tmpDir
    (if ¬ path.IsAbs resourceURL then path.Join baseURL resourceURL else resourceURL)

/-- Placing a discovered resource: appended and unassigned when it is in the
unassigned set, skipped otherwise. -/
def discover (s : List String × GoMap) (c : String) : List String × GoMap :=
  if c ∈ s.2 then (s.1 ++ [c], s.2.delete c) else s

/-- Placing a spine item: appended and unassigned, whatever the set holds. -/
def placeItem (s : List String × GoMap) (itemIRI : String) : List String × GoMap :=
  (s.1 ++ [itemIRI], s.2.delete itemIRI)

/-- The resolved paths the tokens of a document offer to `addResourceToBook`, in
document order. -/
def tokenCandidates (tmpDir baseURL : String) (tokens : List Token) : List String :=
  tokens.filterMap (fun t =>
    if tokenResourceURL t = "" then none
    else some (resourceIRI tmpDir baseURL (tokenResourceURL t)))

/-- The resolved paths `processHtml` offers for the document at `itemIRI`; none
when the document cannot be located or read. -/
def htmlCandidates (env : Env) (archive : Archive) (itemIRI : String) : List String :=
  match filepath.Rel archive.TmpDir itemIRI with
  | .fail _ => []
  | .ok relIRI =>
    match ReadFileFromArchive env archive relIRI with
    | .fail _ => []
    | .ok htmlDoc => tokenCandidates archive.TmpDir (path.Dir relIRI) (env.Tokenize htmlDoc).tokens

/-- The error `processHtml` returns for the document at `itemIRI`. -/
def htmlResult (env : Env) (archive : Archive) (itemIRI : String) : Result :=
  match filepath.Rel archive.TmpDir itemIRI with
  | .fail relErr => .err relErr
  | .ok relIRI =>
    match ReadFileFromArchive env archive relIRI with
    | .fail readErr => .err readErr
    | .ok htmlDoc =>
      match (env.Tokenize htmlDoc).err with
      | none => .nil
      | some err => .err ("Error tokenizing HTML: " ++ err)

/-- Whether a media type is one of the two markup types. -/
def isMarkup (mediaType : String) : Bool :=
  mediaType = "application/xhtml+xml" ∨ mediaType = "text/html"

/-- What one itemref amounts to: the lookup panics, the id is missing and the
loop returns the error `msg`, or an item is placed after the candidates of its
document, the document scan ending in `html`. -/
inductive RefPlan where
  | crash
  | missing (msg : String)
  | item (itemIRI : String) (cands : List String) (html : Result)
  deriving DecidableEq, Repr

def planRef (env : Env) (book : Book) (baseIRI : String) (itemRef : Itemref) : RefPlan :=
  match getResourceById book itemRef.Idref with
  | none => .crash
  | some none =>
    .missing (book.Archive.ArchiveFilename
      ++ " Container is missing an item with id " ++ itemRef.Idref)
  | some (some item) =>
    let itemIRI := resolveItemIRI book baseIRI item
    if isMarkup item.MediaType then
      .item itemIRI (htmlCandidates env book.Archive itemIRI) (htmlResult env book.Archive itemIRI)
    else .item itemIRI [] .nil

def runPlans : List RefPlan → List String × GoMap → (List String × GoMap) × Result
  | [], s => (s, .nil)
  | .crash :: _, s => (s, .panic)
  | .missing msg :: _, s => (s, .err msg)
  | .item itemIRI cands html :: rest, s =>
    let s1 := cands.foldl discover s
    match html with
    | .nil => runPlans rest (placeItem s1 itemIRI)
    | e => (s1, e)

/-- The book with another list of ordered files. -/
def withOrdered (b : Book) (o : List String) : Book := { b with OrderedFiles := o }

/-- The spine loop as `CreateOrderedBook` runs it: over the itemrefs of the spine,
from the book as it is and the map built from `ItemFilename`. -/
def spineRun (env : Env) (book : Book) (pkg : Package) (spine : Spine) : Run :=
  spineLoop env (filepath.Dir pkg.PackageFilename) spine.Itemref book
    (book.ItemFilename.foldl GoMap.set [])

/-- The list-level run behind a call of `CreateOrderedBook`. -/
def bookRun (env : Env) (book : Book) (pkg : Package) (spine : Spine) :
    (List String × GoMap) × Result :=
  runPlans (spine.Itemref.map (planRef env book (filepath.Dir pkg.PackageFilename)))
    (book.OrderedFiles, book.ItemFilename.foldl GoMap.set [])

/-- What `CreateOrderedBook` does once the spine loop has ended in state `s`
with result `r`. -/
def finishBook (order : RangeOrder) (book : Book) (s : List String × GoMap) :
    Result → Book × Result
  | .nil =>
    if book.Archive.Files.length ≠ (s.1 ++ order.keys s.2).length + 3 then
      (withOrdered book (s.1 ++ order.keys s.2), .err ("Failed to order "
        ++ toString (((s.1 ++ order.keys s.2).length : Int) - (book.Archive.Files.length : Int))
        ++ " files for " ++ book.Archive.ArchiveFilename))
    else ({ withOrdered book (s.1 ++ order.keys s.2) with
        ItemFilename := s.1 ++ order.keys s.2 }, .nil)
  | .err e => (withOrdered book s.1, .err e)
  | .panic => (withOrdered book s.1, .panic)

/-- The number of files a state accounts for. -/
def size (s : List String × GoMap) : Nat := s.1.length + s.2.length

/-- From `s` to `t` the unassigned set stays duplicate-free, no file is lost, and
if none was gained the files are the same. -/
def Keeps (s t : List String × GoMap) : Prop :=
  t.2.Nodup ∧ size s ≤ size t ∧ (size t = size s → (t.1 ++ t.2).Perm (s.1 ++ s.2))

/-- The paths of the items a list of plans places. -/
def planPaths : List RefPlan → List String
  | [] => []
  | .crash :: rest => planPaths rest
  | .missing _ :: rest => planPaths rest
  | .item itemIRI _ _ :: rest => itemIRI :: planPaths rest

/-- The candidates the documents of a list of plans offer. -/
def planCands : List RefPlan → List String
  | [] => []
  | .crash :: rest => planCands rest
  | .missing _ :: rest => planCands rest
  | .item _ cands _ :: rest => cands ++ planCands rest

/-- No item is offered before it is placed: the document of each item offers
neither the item's own path nor the path of any later item. Put the other way
round, no item's path is among the candidates of its own document or of the
document of an earlier item. -/
def NotOfferedEarlier : List RefPlan → Prop
  | [] => True
  | .crash :: rest => NotOfferedEarlier rest
  | .missing _ :: rest => NotOfferedEarlier rest
  | .item itemIRI cands _ :: rest =>
    itemIRI ∉ cands ∧ (∀ later ∈ planPaths rest, later ∉ cands) ∧ NotOfferedEarlier rest

instance decNotOfferedEarlier : (plans : List RefPlan) → Decidable (NotOfferedEarlier plans)
  | [] => isTrue trivial
  | .crash :: rest => decNotOfferedEarlier rest
  | .missing _ :: rest => decNotOfferedEarlier rest
  | .item itemIRI cands _ :: rest =>
    have := decNotOfferedEarlier rest
    inferInstanceAs (Decidable
      (itemIRI ∉ cands ∧ (∀ later ∈ planPaths rest, later ∉ cands) ∧ NotOfferedEarlier rest))

/-- What the itemrefs of the spine amount to, in spine order. -/
def spinePlans (env : Env) (book : Book) (pkg : Package) (spine : Spine) : List RefPlan :=
  spine.Itemref.map (planRef env book (filepath.Dir pkg.PackageFilename))

/-- The resolved paths of the spine items (those whose id the manifest holds),
in spine order. -/
def spinePaths (env : Env) (book : Book) (pkg : Package) (spine : Spine) : List String :=
  planPaths (spinePlans env book pkg spine)

/-- The resolved paths the markup documents of the spine offer as resources. -/
def spineCandidates (env : Env) (book : Book) (pkg : Package) (spine : Spine) : List String :=
  planCands (spinePlans env book pkg spine)

/-! ## A small book, for concrete runs -/

/-- The files of an extracted EPUB, as `filepath.Walk` lists them. -/
def sampleArchive : Archive :=
  { ArchiveFilename := "book.epub", ArchiveType := .EPub, TmpDir := "/t",
    Files := ["/t/META-INF/container.xml", "/t/OEBPS/a.png", "/t/OEBPS/b.png",
      "/t/OEBPS/ch1.xhtml", "/t/OEBPS/content.opf", "/t/OEBPS/extra.css",
      "/t/OEBPS/notes.txt", "/t/mimetype"] }

def sampleImg (src : String) : Token :=
  { Kind := .SelfClosingTagToken, Data := "img",
    Attr := [{ Namespace := "", Key := "src", Val := src }] }

def sampleManifest : Manifest :=
  { Item := [{ Href := "ch1.xhtml", Id := "ch1", MediaType := "application/xhtml+xml" },
      { Href := "a.png", Id := "imgA", MediaType := "image/png" },
      { Href := "b.png", Id := "imgB", MediaType := "image/png" },
      { Href := "extra.css", Id := "css", MediaType := "text/css" }] }

def samplePackage : Package :=
  { Manifest := some sampleManifest,
    Spine := some { Itemref := [{ Idref := "ch1", Linear := "" }] },
    PackageFilename := "OEBPS/content.opf" }

/-- The chapter holds two self-closing `img` elements, `a.png` then `b.png`. -/
def sampleEnv : Env :=
  { ReadFile := fun absPath =>
      if absPath = "/t/mimetype" then .ok "application/epub+zip"
      else if absPath = "/t/META-INF/container.xml" then .ok "container"
      else if absPath = "/t/OEBPS/content.opf" then .ok "package"
      else if absPath = "/t/OEBPS/ch1.xhtml" then .ok "<img src=a.png /><img src=b.png />"
      else .fail ("open " ++ absPath ++ ": no such file or directory")
    UnmarshalContainer := fun _ =>
      .ok { RootFiles := some { RootFile :=
        [{ FullPath := "OEBPS/content.opf", MediaType := "application/oebps-package+xml" }] } }
    UnmarshalPackage := fun _ fresh =>
      .ok { fresh with Manifest := samplePackage.Manifest, Spine := samplePackage.Spine }
    UnmarshalComicInfo := fun _ => .ok { ArchiveFileInfo := none }
    LowerCase := fun c => c
    Tokenize := fun doc =>
      if doc = "<img src=a.png /><img src=b.png />" then
        { tokens := [sampleImg "a.png", sampleImg "b.png"], err := none }
      else { tokens := [], err := none } }

def sampleBook : Book :=
  { Archive := sampleArchive
    Container := some { RootFiles := some { RootFile :=
      [{ FullPath := "OEBPS/content.opf", MediaType := "application/oebps-package+xml" }] } }
    Package := some samplePackage
    MimetypeFilename := "/t/mimetype"
    ContainerFilename := "/t/META-INF/container.xml"
    RootFilename := "/t/OEBPS/content.opf"
    ItemFilename := ["/t/OEBPS/a.png", "/t/OEBPS/b.png", "/t/OEBPS/ch1.xhtml",
      "/t/OEBPS/extra.css", "/t/OEBPS/notes.txt"]
    OrderedFiles := [] }

/-- A `range` that visits the keys in the order they were stored. -/
def rangeStored : RangeOrder := ⟨fun m => m, fun m => List.Perm.refl m⟩

/-- A `range` that visits the keys in the opposite order. -/
def rangeReversed : RangeOrder := ⟨fun m => m.reverse, fun m => List.reverse_perm m⟩

/-- The sample book with another spine. -/
def sampleBookWithSpine (refs : List Itemref) : Book :=
  { sampleBook with Package := some { samplePackage with Spine := some { Itemref := refs } } }

/-- The sample spine names the chapter twice. -/
def twiceBook : Book :=
  sampleBookWithSpine [{ Idref := "ch1", Linear := "" }, { Idref := "ch1", Linear := "" }]

/-- The sample spine names the chapter and then an image the chapter shows. -/
def placedEarlierBook : Book :=
  sampleBookWithSpine [{ Idref := "ch1", Linear := "" }, { Idref := "imgA", Linear := "" }]

/-- The sample spine names the chapter and then an id the manifest lacks. -/
def missingIdBook : Book :=
  sampleBookWithSpine [{ Idref := "ch1", Linear := "" }, { Idref := "nope", Linear := "" }]

/-- The sample environment with the two `img` elements of the chapter written
as start tags, as in `<img src=a.png>`. -/
def startTagEnv : Env :=
  { sampleEnv with
    Tokenize := fun doc =>
      if doc = "<img src=a.png /><img src=b.png />" then
        { tokens := [{ sampleImg "a.png" with Kind := .StartTagToken },
            { sampleImg "b.png" with Kind := .StartTagToken }], err := none }
      else { tokens := [], err := none } }

/-- The sample environment with a container file that holds no `rootfiles`
element, as in `<container xmlns="urn:oasis:names:tc:opendocument:xmlns:container"/>`:
the decoder succeeds and leaves the `RootFiles` pointer nil. -/
def noRootfilesEnv : Env :=
  { sampleEnv with UnmarshalContainer := fun _ => .ok { RootFiles := none } }

/-- The book `ExtractBookFromArchive` hands to `populateFromXml` for the sample
archive. -/
def sampleFreshBook : Book :=
  { Archive := sampleArchive, Container := none, Package := none,
    MimetypeFilename := "/t/mimetype", ContainerFilename := "", RootFilename := "",
    ItemFilename := [], OrderedFiles := [] }

/-- An extracted comic archive: the files carry the temporary directory. -/
def sampleComicArchive : Archive :=
  { ArchiveFilename := "comic.cbz", ArchiveType := .ComicBook, TmpDir := "/tmp/bish1",
    Files := ["/tmp/bish1/ComicInfo.xml", "/tmp/bish1/Thumbs.db", "/tmp/bish1/page1.jpg"] }

/-- The sample book with the one itemref of its spine marked non-linear. -/
def nonLinearBook : Book :=
  sampleBookWithSpine [{ Idref := "ch1", Linear := "no" }]

/-- A comic archive named with a comic extension, and the same archive named
with another extension. -/
def comicNamedCbz : Archive :=
  { ArchiveFilename := "comic.cbz", ArchiveType := .Unknown, TmpDir := "/tmp/bish1",
    Files := ["/tmp/bish1/page1.jpg"] }

def comicNamedZip : Archive := { comicNamedCbz with ArchiveFilename := "comic.zip" }

/-- An archive file that starts with the bytes of a 7-Zip file, `37 7A BC AF`;
everything around it works. -/
def sevenZipEnv : ExtractEnv :=
  { TempDir := .ok "/tmp/bish1"
    Open := fun _ => .ok ()
    ReadFull := fun _ => .ok { b0 := 0x37, b1 := 0x7A, b2 := 0xBC, b3 := 0xAF }
    Run := fun _ => none
    Walk := fun _ => [] }

/-- An archive file that starts with `PK`, extracted without error into one
page and a directory. -/
def zipEnv : ExtractEnv :=
  { sevenZipEnv with
    ReadFull := fun _ => .ok { b0 := 0x50, b1 := 0x4B, b2 := 0x03, b3 := 0x04 }
    Walk := fun tmpdir =>
      [.dir tmpdir, .file (tmpdir ++ "/page1.jpg")] }

/-- The sample environment with a package descriptor that holds the spine but
no `manifest` element: the decoder succeeds and leaves the `Manifest` pointer
nil. -/
def noManifestEnv : Env :=
  { sampleEnv with
    UnmarshalPackage := fun _ fresh => .ok { fresh with Spine := samplePackage.Spine } }

/-- The book `ExtractBookFromArchive` builds from the sample archive when the
package descriptor has no `manifest` element. -/
def noManifestBook : Book :=
  { sampleBook with Package := some { samplePackage with Manifest := none } }

/-- The sample spine names an image the chapter shows, and then the chapter. -/
def imageFirstBook : Book :=
  sampleBookWithSpine [{ Idref := "imgA", Linear := "" }, { Idref := "ch1", Linear := "" }]

/-- The token of `<link rel=stylesheet href=... />`. -/
def sampleLink (href : String) : Token :=
  { Kind := .SelfClosingTagToken, Data := "link",
    Attr := [{ Namespace := "", Key := "rel", Val := "stylesheet" },
      { Namespace := "", Key := "href", Val := href }] }

/-- The sample environment with a stylesheet link in the chapter before its two
images. -/
def linkedEnv : Env :=
  { sampleEnv with
    Tokenize := fun doc =>
      if doc = "<img src=a.png /><img src=b.png />" then
        { tokens := [sampleLink "extra.css", sampleImg "a.png", sampleImg "b.png"], err := none }
      else { tokens := [], err := none } }

/-- The sample book with a second chapter in the manifest and the spine whose
file the archive does not hold. -/
def unreadableBook : Book :=
  { sampleBook with
    Package := some { samplePackage with
      Manifest := some { Item := sampleManifest.Item ++
        [{ Href := "ch2.xhtml", Id := "ch2", MediaType := "application/xhtml+xml" }] },
      Spine := some { Itemref := [{ Idref := "ch2", Linear := "" }] } } }

/-- The error of `CreateOrderedBook` for that book. -/
def unreadableMessage : String :=
  "Could not read file from archive book.epub: open /t/OEBPS/ch2.xhtml: no such file or directory"

/-! # Theorems -/

/-! ## The map of unassigned files -/

namespace GoMap

theorem mem_set (m : GoMap) (k x : String) : x ∈ m.set k ↔ x ∈ m ∨ x = k := by
  unfold set
  split
  · constructor
    · exact Or.inl
    · rintro (h | h)
      · exact h
      · subst h; assumption
  · simp

theorem nodup_set (m : GoMap) (k : String) (h : m.Nodup) : (m.set k).Nodup := by
  unfold set
  split
  · exact h
  · rw [List.nodup_append]
    refine ⟨h, List.nodup_singleton k, ?_⟩
    intro a ha hb
    have : a = k := by simpa using hb
    subst this
    contradiction

theorem nodup_foldl_set (l : List String) (acc : GoMap) (h : acc.Nodup) :
    (l.foldl set acc).Nodup := by
  induction l generalizing acc with
  | nil => exact h
  | cons a l ih => exact ih _ (nodup_set acc a h)

theorem mem_foldl_set (l : List String) (acc : GoMap) (x : String) :
    x ∈ l.foldl set acc ↔ x ∈ acc ∨ x ∈ l := by
  induction l generalizing acc with
  | nil => simp
  | cons a l ih =>
    rw [List.foldl_cons, ih, mem_set, List.mem_cons]
    constructor
    · rintro ((h | h) | h)
      · exact Or.inl h
      · exact Or.inr (Or.inl h)
      · exact Or.inr (Or.inr h)
    · rintro (h | h | h)
      · exact Or.inl (Or.inl h)
      · exact Or.inl (Or.inr h)
      · exact Or.inr h

theorem foldl_set_of_nodup (l : List String) (acc : GoMap) (h : (acc ++ l).Nodup) :
    l.foldl set acc = acc ++ l := by
  induction l generalizing acc with
  | nil => simp
  | cons a l ih =>
    have ha : a ∉ acc := by
      intro hmem
      have := (List.nodup_append.mp h).2.2 hmem (List.mem_cons_self a l)
      exact this
    have hset : set acc a = acc ++ [a] := by simp [set, ha]
    rw [List.foldl_cons, hset, ih]
    · simp
    · simpa using h

theorem get_eq_true (m : GoMap) (k : String) : m.get k = true ↔ k ∈ m := by
  simp [get]

theorem mem_delete (m : GoMap) (k x : String) : x ∈ m.delete k ↔ x ∈ m ∧ x ≠ k := by
  simp [delete]

theorem not_mem_delete (m : GoMap) (k : String) : k ∉ m.delete k := by
  simp [delete]

theorem nodup_delete (m : GoMap) (k : String) (h : m.Nodup) : (m.delete k).Nodup :=
  h.filter _

theorem delete_of_not_mem (m : GoMap) (k : String) (h : k ∉ m) : m.delete k = m := by
  unfold delete
  rw [List.filter_eq_self]
  intro a ha
  have : a ≠ k := fun e => h (e ▸ ha)
  simpa using this

theorem perm_cons_delete (m : GoMap) (k : String) (h : m.Nodup) (hk : k ∈ m) :
    (k :: m.delete k).Perm m := by
  induction m with
  | nil => cases hk
  | cons a m ih =>
    have hnd := List.nodup_cons.mp h
    by_cases hak : a = k
    · subst hak
      have : delete (a :: m) a = m := by
        have h1 : delete (a :: m) a = delete m a := by simp [delete]
        rw [h1, delete_of_not_mem m a hnd.1]
      rw [this]
    · have hk2 : k ∈ m := by
        rcases List.mem_cons.mp hk with h1 | h1
        · exact absurd h1.symm hak
        · exact h1
      have h1 : delete (a :: m) k = a :: delete m k := by simp [delete, hak]
      rw [h1]
      exact (List.Perm.swap a k _).trans ((ih hnd.2 hk2).cons a)

end GoMap

/-! ## The restatement as a function of lists is the code -/

@[simp] theorem withOrdered_self (b : Book) : withOrdered b b.OrderedFiles = b := rfl

@[simp] theorem withOrdered_withOrdered (b : Book) (o o2 : List String) :
    withOrdered (withOrdered b o) o2 = withOrdered b o2 := rfl

@[simp] theorem withOrdered_OrderedFiles (b : Book) (o : List String) :
    (withOrdered b o).OrderedFiles = o := rfl

@[simp] theorem withOrdered_Archive (b : Book) (o : List String) :
    (withOrdered b o).Archive = b.Archive := rfl

@[simp] theorem withOrdered_Package (b : Book) (o : List String) :
    (withOrdered b o).Package = b.Package := rfl

@[simp] theorem withOrdered_ItemFilename (b : Book) (o : List String) :
    (withOrdered b o).ItemFilename = b.ItemFilename := rfl

theorem addResourceToBook_eq (b : Book) (resourceURL baseURL : String) (m : GoMap) :
    addResourceToBook b resourceURL baseURL m =
      (withOrdered b
          (discover (b.OrderedFiles, m) (resourceIRI b.Archive.TmpDir baseURL resourceURL)).1,
        (discover (b.OrderedFiles, m) (resourceIRI b.Archive.TmpDir baseURL resourceURL)).2) := by
  show (if GoMap.get m (resourceIRI b.Archive.TmpDir baseURL resourceURL) = true then
      (withOrdered b (b.OrderedFiles ++ [resourceIRI b.Archive.TmpDir baseURL resourceURL]),
        GoMap.delete m (resourceIRI b.Archive.TmpDir baseURL resourceURL))
    else (b, m)) = _
  by_cases h : resourceIRI b.Archive.TmpDir baseURL resourceURL ∈ m
  · simp [GoMap.get, discover, h]
  · simp [GoMap.get, discover, h]

theorem foldl_processToken (baseURL : String) (tokens : List Token) (b : Book) (m : GoMap) :
    tokens.foldl (processToken baseURL) (b, m) =
      (withOrdered b
          ((tokenCandidates b.Archive.TmpDir baseURL tokens).foldl discover (b.OrderedFiles, m)).1,
        ((tokenCandidates b.Archive.TmpDir baseURL tokens).foldl discover (b.OrderedFiles, m)).2) := by
  induction tokens generalizing b m with
  | nil => simp [tokenCandidates]
  | cons t ts ih =>
    rw [List.foldl_cons]
    by_cases h : tokenResourceURL t = ""
    · have h1 : processToken baseURL (b, m) t = (b, m) := by simp [processToken, h]
      have h2 : tokenCandidates b.Archive.TmpDir baseURL (t :: ts)
          = tokenCandidates b.Archive.TmpDir baseURL ts := by
        simp [tokenCandidates, h]
      rw [h1, h2, ih]
    · have h1 : processToken baseURL (b, m) t
          = addResourceToBook b (tokenResourceURL t) baseURL m := by
        simp [processToken, h]
      have h2 : tokenCandidates b.Archive.TmpDir baseURL (t :: ts)
          = resourceIRI b.Archive.TmpDir baseURL (tokenResourceURL t)
            :: tokenCandidates b.Archive.TmpDir baseURL ts := by
        simp [tokenCandidates, h]
      rw [h1, h2, addResourceToBook_eq, ih]
      simp

theorem processHtml_eq (env : Env) (b : Book) (itemIRI : String) (m : GoMap) :
    processHtml env b itemIRI m =
      ⟨withOrdered b ((htmlCandidates env b.Archive itemIRI).foldl discover (b.OrderedFiles, m)).1,
        ((htmlCandidates env b.Archive itemIRI).foldl discover (b.OrderedFiles, m)).2,
        htmlResult env b.Archive itemIRI⟩ := by
  cases hrel : filepath.Rel b.Archive.TmpDir itemIRI with
  | fail e => simp [processHtml, htmlCandidates, htmlResult, hrel]
  | ok relIRI =>
    cases hread : ReadFileFromArchive env b.Archive relIRI with
    | fail e => simp [processHtml, htmlCandidates, htmlResult, hrel, hread]
    | ok doc =>
      cases herr : (env.Tokenize doc).err with
      | none =>
        simp [processHtml, htmlCandidates, htmlResult, hrel, hread, herr, foldl_processToken]
      | some e =>
        simp [processHtml, htmlCandidates, htmlResult, hrel, hread, herr, foldl_processToken]

theorem planRef_withOrdered (env : Env) (b : Book) (o : List String) (baseIRI : String)
    (itemRef : Itemref) : planRef env (withOrdered b o) baseIRI itemRef = planRef env b baseIRI itemRef :=
  rfl

theorem spineLoop_eq (env : Env) (baseIRI : String) (refs : List Itemref) (b : Book) (m : GoMap) :
    spineLoop env baseIRI refs b m =
      ⟨withOrdered b (runPlans (refs.map (planRef env b baseIRI)) (b.OrderedFiles, m)).1.1,
        (runPlans (refs.map (planRef env b baseIRI)) (b.OrderedFiles, m)).1.2,
        (runPlans (refs.map (planRef env b baseIRI)) (b.OrderedFiles, m)).2⟩ := by
  induction refs generalizing b m with
  | nil => simp [spineLoop, runPlans]
  | cons r rs ih =>
    rw [List.map_cons]
    cases hget : getResourceById b r.Idref with
    | none => simp [spineLoop, planRef, hget, runPlans]
    | some found =>
      cases found with
      | none => simp [spineLoop, planRef, hget, runPlans]
      | some item =>
        by_cases hm : item.MediaType = "application/xhtml+xml" ∨ item.MediaType = "text/html"
        · have hm1 : isMarkup item.MediaType = true := by simpa [isMarkup] using hm
          cases hres : htmlResult env b.Archive (resolveItemIRI b baseIRI item) with
          | nil =>
            simp only [spineLoop, planRef, hget, hm, hm1, if_true, processHtml_eq, hres, runPlans]
            exact (ih (withOrdered b (((htmlCandidates env b.Archive
              (resolveItemIRI b baseIRI item)).foldl discover (b.OrderedFiles, m)).1
                ++ [resolveItemIRI b baseIRI item])) _).trans rfl
          | err e =>
            simp [spineLoop, planRef, hget, hm, hm1, processHtml_eq, hres, runPlans]
          | panic =>
            simp [spineLoop, planRef, hget, hm, hm1, processHtml_eq, hres, runPlans]
        · have hm1 : isMarkup item.MediaType = false := by simpa [isMarkup] using hm
          simp only [spineLoop, planRef, hget, hm, hm1, if_false, runPlans]
          exact (ih (withOrdered b (b.OrderedFiles ++ [resolveItemIRI b baseIRI item])) _).trans rfl

theorem CreateOrderedBook_eq (env : Env) (order : RangeOrder) (book : Book) (pkg : Package)
    (spine : Spine) (hpkg : book.Package = some pkg) (hspine : pkg.Spine = some spine) :
    CreateOrderedBook env order book =
      finishBook order book (bookRun env book pkg spine).1 (bookRun env book pkg spine).2 := by
  simp only [CreateOrderedBook, hpkg, hspine, spineLoop_eq, bookRun]
  cases (runPlans (spine.Itemref.map (planRef env book (filepath.Dir pkg.PackageFilename)))
      (book.OrderedFiles, book.ItemFilename.foldl GoMap.set [])).2 <;> rfl

theorem finishBook_nil_inv (order : RangeOrder) (book : Book) (s : List String × GoMap)
    (r : Result) (hok : (finishBook order book s r).2 = .nil) :
    r = .nil ∧ (finishBook order book s r).1.OrderedFiles = s.1 ++ order.keys s.2 ∧
      (finishBook order book s r).1.ItemFilename = s.1 ++ order.keys s.2 ∧
      book.Archive.Files.length = (s.1 ++ order.keys s.2).length + 3 := by
  cases r with
  | nil =>
    by_cases hlen : book.Archive.Files.length ≠ (s.1 ++ order.keys s.2).length + 3
    · rw [finishBook, if_pos hlen] at hok
      cases hok
    · rw [finishBook, if_neg hlen]
      exact ⟨rfl, rfl, rfl, not_not.mp hlen⟩
  | err e => cases hok
  | panic => cases hok

/-! ## Counting: nothing is lost, and nothing is gained without a failure -/

theorem Keeps.refl (s : List String × GoMap) (h : s.2.Nodup) : Keeps s s :=
  ⟨h, le_refl _, fun _ => List.Perm.refl _⟩

theorem Keeps.trans {s t u : List String × GoMap} (h1 : Keeps s t) (h2 : Keeps t u) :
    Keeps s u := by
  refine ⟨h2.1, le_trans h1.2.1 h2.2.1, ?_⟩
  intro h
  have e1 : size t = size s := le_antisymm (h ▸ h2.2.1) h1.2.1
  have e2 : size u = size t := by rw [h, e1]
  exact (h2.2.2 e2).trans (h1.2.2 e1)

theorem length_delete_of_mem (m : GoMap) (k : String) (h : m.Nodup) (hk : k ∈ m) :
    (m.delete k).length + 1 = m.length := by
  have := (GoMap.perm_cons_delete m k h hk).length_eq
  simpa using this

theorem keeps_discover (s : List String × GoMap) (c : String) (h : s.2.Nodup) :
    Keeps s (discover s c) ∧ size (discover s c) = size s := by
  unfold discover
  by_cases hc : c ∈ s.2
  · have hlen := length_delete_of_mem s.2 c h hc
    have hperm : (s.1 ++ [c] ++ s.2.delete c).Perm (s.1 ++ s.2) := by
      rw [List.append_assoc]
      exact List.Perm.append_left _ (GoMap.perm_cons_delete s.2 c h hc)
    have hsize : size (s.1 ++ [c], s.2.delete c) = size s := by
      simp only [size, List.length_append, List.length_singleton]
      omega
    rw [if_pos hc]
    exact ⟨⟨GoMap.nodup_delete _ _ h, le_of_eq hsize.symm, fun _ => hperm⟩, hsize⟩
  · rw [if_neg hc]
    exact ⟨Keeps.refl s h, rfl⟩

theorem keeps_foldl_discover (cands : List String) (s : List String × GoMap) (h : s.2.Nodup) :
    Keeps s (cands.foldl discover s) ∧ size (cands.foldl discover s) = size s := by
  induction cands generalizing s with
  | nil => exact ⟨Keeps.refl s h, rfl⟩
  | cons c cs ih =>
    have h1 := keeps_discover s c h
    have h2 := ih (discover s c) h1.1.1
    exact ⟨h1.1.trans h2.1, h2.2.trans h1.2⟩

theorem keeps_placeItem (s : List String × GoMap) (itemIRI : String) (h : s.2.Nodup) :
    Keeps s (placeItem s itemIRI) := by
  unfold placeItem
  by_cases hc : itemIRI ∈ s.2
  · have hlen := length_delete_of_mem s.2 itemIRI h hc
    have hperm : (s.1 ++ [itemIRI] ++ s.2.delete itemIRI).Perm (s.1 ++ s.2) := by
      rw [List.append_assoc]
      exact List.Perm.append_left _ (GoMap.perm_cons_delete s.2 itemIRI h hc)
    refine ⟨GoMap.nodup_delete _ _ h, ?_, fun _ => hperm⟩
    simp only [size, List.length_append, List.length_singleton]
    omega
  · rw [GoMap.delete_of_not_mem _ _ hc]
    refine ⟨h, ?_, ?_⟩
    · simp only [size, List.length_append, List.length_singleton]
      omega
    · intro e
      simp only [size, List.length_append, List.length_singleton] at e
      omega

theorem keeps_runPlans (plans : List RefPlan) (s : List String × GoMap) (h : s.2.Nodup) :
    Keeps s (runPlans plans s).1 := by
  induction plans generalizing s with
  | nil => exact Keeps.refl s h
  | cons p ps ih =>
    cases p with
    | crash => exact Keeps.refl s h
    | missing msg => exact Keeps.refl s h
    | item itemIRI cands html =>
      have h1 := (keeps_foldl_discover cands s h).1
      cases html with
      | nil =>
        have h2 := keeps_placeItem (cands.foldl discover s) itemIRI h1.1
        exact (h1.trans h2).trans (ih _ h2.1)
      | err e => exact h1
      | panic => exact h1

/-- Removing three distinct members from a duplicate-free list shortens it by
three. -/
theorem length_filter_three (files : List String) (a b c : String) (hnd : files.Nodup)
    (ha : a ∈ files) (hb : b ∈ files) (hc : c ∈ files) (hab : a ≠ b) (hac : a ≠ c)
    (hbc : b ≠ c) :
    (files.filter (fun file => file ≠ a ∧ file ≠ b ∧ file ≠ c)).length + 3 = files.length := by
  have hsplit := List.length_eq_length_filter_add (l := files)
    (fun file => decide (file ≠ a ∧ file ≠ b ∧ file ≠ c))
  have hrest : (files.filter (fun file => ! decide (file ≠ a ∧ file ≠ b ∧ file ≠ c))).Perm
      [a, b, c] := by
    rw [List.perm_ext_iff_of_nodup (hnd.filter _) (by simp [hab, hac, hbc])]
    intro x
    simp only [List.mem_filter, List.mem_cons, List.mem_singleton, List.not_mem_nil, or_false]
    constructor
    · rintro ⟨_, hx⟩
      by_contra hne
      push_neg at hne
      simp [hne.1, hne.2.1, hne.2.2] at hx
    · rintro (rfl | rfl | rfl)
      · exact ⟨ha, by simp⟩
      · exact ⟨hb, by simp⟩
      · exact ⟨hc, by simp⟩
  have h3 := hrest.length_eq
  simp only [List.length_cons, List.length_nil] at h3
  omega

/-! ## Where files go -/

theorem mem_discover_files (s : List String × GoMap) (c x : String) :
    x ∈ (discover s c).2 ↔ x ∈ s.2 ∧ x ≠ c := by
  unfold discover
  by_cases hc : c ∈ s.2
  · rw [if_pos hc]
    exact GoMap.mem_delete _ _ _
  · rw [if_neg hc]
    constructor
    · intro hx
      exact ⟨hx, fun e => hc (e ▸ hx)⟩
    · exact fun h => h.1

theorem mem_foldl_discover_files (cands : List String) (s : List String × GoMap) (x : String) :
    x ∈ (cands.foldl discover s).2 ↔ x ∈ s.2 ∧ x ∉ cands := by
  induction cands generalizing s with
  | nil => simp
  | cons c cs ih =>
    rw [List.foldl_cons, ih, mem_discover_files, List.mem_cons]
    constructor
    · rintro ⟨⟨h1, h2⟩, h3⟩
      exact ⟨h1, fun h => h.elim h2 h3⟩
    · rintro ⟨h1, h2⟩
      exact ⟨⟨h1, fun e => h2 (Or.inl e)⟩, fun e => h2 (Or.inr e)⟩

/-- Discovery only appends, and only candidates that were unassigned. -/
theorem foldl_discover_ordered (cands : List String) (s : List String × GoMap) :
    ∃ out, (cands.foldl discover s).1 = s.1 ++ out ∧ ∀ x ∈ out, x ∈ cands ∧ x ∈ s.2 := by
  induction cands generalizing s with
  | nil => exact ⟨[], by simp, by simp⟩
  | cons c cs ih =>
    obtain ⟨out, h1, h2⟩ := ih (discover s c)
    rw [List.foldl_cons]
    by_cases hc : c ∈ s.2
    · have hd : discover s c = (s.1 ++ [c], s.2.delete c) := by simp [discover, hc]
      refine ⟨c :: out, ?_, ?_⟩
      · rw [h1, hd]; simp
      · intro x hx
        rcases List.mem_cons.mp hx with rfl | hx
        · exact ⟨List.mem_cons_self _ _, hc⟩
        · have := h2 x hx
          rw [hd] at this
          exact ⟨List.mem_cons_of_mem _ this.1, ((GoMap.mem_delete _ _ _).mp this.2).1⟩
    · have hd : discover s c = s := by simp [discover, hc]
      refine ⟨out, ?_, ?_⟩
      · rw [h1, hd]
      · intro x hx
        have := h2 x hx
        rw [hd] at this
        exact ⟨List.mem_cons_of_mem _ this.1, this.2⟩

/-- The spine loop only appends, and only spine items and candidates. -/
theorem runPlans_ordered (plans : List RefPlan) (s : List String × GoMap) :
    ∃ out, (runPlans plans s).1.1 = s.1 ++ out ∧
      (∀ x ∈ out, x ∈ planPaths plans ∨ x ∈ planCands plans) ∧
      ((runPlans plans s).2 = .nil → ∀ p ∈ planPaths plans, p ∈ out) := by
  induction plans generalizing s with
  | nil => exact ⟨[], by simp [runPlans], by simp, by simp [planPaths]⟩
  | cons p ps ih =>
    cases p with
    | crash => exact ⟨[], by simp [runPlans], by simp, by simp [runPlans]⟩
    | missing msg => exact ⟨[], by simp [runPlans], by simp, by simp [runPlans]⟩
    | item itemIRI cands html =>
      obtain ⟨out1, h1, h2⟩ := foldl_discover_ordered cands s
      cases html with
      | nil =>
        obtain ⟨out2, h3, h4, h5⟩ := ih (placeItem (cands.foldl discover s) itemIRI)
        refine ⟨out1 ++ itemIRI :: out2, ?_, ?_, ?_⟩
        · simp only [runPlans]
          rw [h3]
          simp [placeItem, h1]
        · intro x hx
          rcases List.mem_append.mp hx with hx | hx
          · exact Or.inr (by simp [planCands, (h2 x hx).1])
          · rcases List.mem_cons.mp hx with rfl | hx
            · exact Or.inl (by simp [planPaths])
            · rcases h4 x hx with h | h
              · exact Or.inl (by simp [planPaths, h])
              · exact Or.inr (by simp [planCands, h])
        · intro hnil q hq
          simp only [runPlans] at hnil
          simp only [planPaths, List.mem_cons] at hq
          rcases hq with rfl | hq
          · simp
          · have := h5 hnil q hq
            simp [this]
      | err e =>
        refine ⟨out1, by simp [runPlans, h1], ?_, by simp [runPlans]⟩
        intro x hx
        exact Or.inr (by simp [planCands, (h2 x hx).1])
      | panic =>
        refine ⟨out1, by simp [runPlans, h1], ?_, by simp [runPlans]⟩
        intro x hx
        exact Or.inr (by simp [planCands, (h2 x hx).1])

/-- What is left unassigned was unassigned before, and stays unassigned if it is
neither a spine item nor a candidate; after a loop that ran through the whole
spine nothing else is left. -/
theorem mem_runPlans_files (plans : List RefPlan) (s : List String × GoMap) (x : String) :
    (x ∈ (runPlans plans s).1.2 → x ∈ s.2) ∧
      (x ∈ s.2 → x ∉ planPaths plans → x ∉ planCands plans → x ∈ (runPlans plans s).1.2) ∧
      ((runPlans plans s).2 = .nil → x ∈ (runPlans plans s).1.2 →
        x ∉ planPaths plans ∧ x ∉ planCands plans) := by
  induction plans generalizing s with
  | nil => simp [runPlans, planPaths, planCands]
  | cons p ps ih =>
    cases p with
    | crash =>
      simp only [runPlans, planPaths, planCands]
      exact ⟨id, fun h _ _ => h, fun h => by cases h⟩
    | missing msg =>
      simp only [runPlans, planPaths, planCands]
      exact ⟨id, fun h _ _ => h, fun h => by cases h⟩
    | item itemIRI cands html =>
      have hd := mem_foldl_discover_files cands s x
      cases html with
      | nil =>
        obtain ⟨h1, h2, h3⟩ := ih (placeItem (cands.foldl discover s) itemIRI)
        have hp : x ∈ (placeItem (cands.foldl discover s) itemIRI).2 ↔
            (x ∈ s.2 ∧ x ∉ cands) ∧ x ≠ itemIRI := by
          unfold placeItem
          rw [GoMap.mem_delete, hd]
        simp only [runPlans, planPaths, planCands, List.mem_cons, List.mem_append, not_or]
        refine ⟨fun hx => (hp.mp (h1 hx)).1.1, ?_, ?_⟩
        · intro hx hpaths hcands
          exact h2 (hp.mpr ⟨⟨hx, hcands.1⟩, hpaths.1⟩) hpaths.2 hcands.2
        · intro hnil hx
          have h4 := h3 hnil hx
          have h5 := hp.mp (h1 hx)
          exact ⟨⟨h5.2, h4.1⟩, h5.1.2, h4.2⟩
      | err e =>
        simp only [runPlans, planPaths, planCands, List.mem_cons, List.mem_append, not_or]
        refine ⟨fun hx => (hd.mp hx).1, ?_, ?_⟩
        · intro hx _ hcands
          exact hd.mpr ⟨hx, hcands.1⟩
        · intro h; cases h
      | panic =>
        simp only [runPlans, planPaths, planCands, List.mem_cons, List.mem_append, not_or]
        refine ⟨fun hx => (hd.mp hx).1, ?_, ?_⟩
        · intro hx _ hcands
          exact hd.mpr ⟨hx, hcands.1⟩
        · intro h; cases h

/-- When every plan places an item whose document scans without error, the
item paths are distinct and unassigned, and no document offers an item path,
the loop runs to its end and gains no file. -/
theorem runPlans_fits (plans : List RefPlan) (s : List String × GoMap) (hnd : s.2.Nodup)
    (hall : ∀ p ∈ plans, ∃ itemIRI cands, p = .item itemIRI cands .nil)
    (hpaths : (planPaths plans).Nodup) (hin : ∀ i ∈ planPaths plans, i ∈ s.2)
    (hc : ∀ c ∈ planCands plans, c ∉ planPaths plans) :
    (runPlans plans s).2 = .nil ∧ size (runPlans plans s).1 = size s := by
  induction plans generalizing s with
  | nil => simp [runPlans]
  | cons p ps ih =>
    obtain ⟨itemIRI, cands, rfl⟩ := hall p (List.mem_cons_self _ _)
    simp only [planPaths, List.nodup_cons] at hpaths
    have hk := keeps_foldl_discover cands s hnd
    have hitem : itemIRI ∈ (cands.foldl discover s).2 := by
      rw [mem_foldl_discover_files]
      refine ⟨hin itemIRI (by simp [planPaths]), ?_⟩
      intro hmem
      exact hc itemIRI (by simp [planCands, hmem]) (by simp [planPaths])
    have hplace : size (placeItem (cands.foldl discover s) itemIRI) = size s := by
      have := length_delete_of_mem _ itemIRI hk.1.1 hitem
      have h2 := hk.2
      simp only [size, placeItem, List.length_append, List.length_singleton] at h2 ⊢
      omega
    have hrest := ih (placeItem (cands.foldl discover s) itemIRI)
      (GoMap.nodup_delete _ _ hk.1.1)
      (fun p hp => hall p (List.mem_cons_of_mem _ hp)) hpaths.2
      (by
        intro i hi
        unfold placeItem
        rw [GoMap.mem_delete, mem_foldl_discover_files]
        refine ⟨⟨hin i (by simp [planPaths, hi]), ?_⟩, ?_⟩
        · intro hmem
          exact hc i (by simp [planCands, hmem]) (by simp [planPaths, hi])
        · rintro rfl
          exact hpaths.1 hi)
      (by
        intro c hcm hcp
        exact hc c (by simp [planCands, hcm]) (by simp [planPaths, hcp]))
    simp only [runPlans]
    exact ⟨hrest.1, hrest.2.trans hplace⟩

/-- A loop that runs to its end met only items whose documents scanned without
error. -/
theorem runPlans_nil_inv (plans : List RefPlan) (s : List String × GoMap)
    (h : (runPlans plans s).2 = .nil) :
    ∀ p ∈ plans, ∃ itemIRI cands, p = .item itemIRI cands .nil := by
  induction plans generalizing s with
  | nil => simp
  | cons p ps ih =>
    cases p with
    | crash => simp [runPlans] at h
    | missing msg => simp [runPlans] at h
    | item itemIRI cands html =>
      cases html with
      | nil =>
        simp only [runPlans] at h
        intro q hq
        rcases List.mem_cons.mp hq with rfl | hq
        · exact ⟨itemIRI, cands, rfl⟩
        · exact ih _ h q hq
      | err e => simp [runPlans] at h
      | panic => simp [runPlans] at h

/-- A loop that meets a missing id, and no panic before it, returns an error. -/
theorem runPlans_missing (plans : List RefPlan) (s : List String × GoMap)
    (hcrash : RefPlan.crash ∉ plans)
    (hhtml : ∀ itemIRI cands, RefPlan.item itemIRI cands .panic ∉ plans)
    (hmiss : ∃ msg, RefPlan.missing msg ∈ plans) :
    ∃ msg, (runPlans plans s).2 = .err msg := by
  induction plans generalizing s with
  | nil => simp at hmiss
  | cons p ps ih =>
    cases p with
    | crash => simp at hcrash
    | missing msg => exact ⟨msg, rfl⟩
    | item itemIRI cands html =>
      cases html with
      | nil =>
        simp only [runPlans]
        apply ih
        · exact fun h => hcrash (List.mem_cons_of_mem _ h)
        · exact fun i c h => hhtml i c (List.mem_cons_of_mem _ h)
        · obtain ⟨msg, hm⟩ := hmiss
          rcases List.mem_cons.mp hm with h | h
          · cases h
          · exact ⟨msg, h⟩
      | err e => exact ⟨e, rfl⟩
      | panic => exact absurd (List.mem_cons_self _ _) (hhtml itemIRI cands)

/-- A call that returns no error went through the whole spine, appended the
remainder, and passed the count check. -/
theorem createOrderedBook_nil_inv (env : Env) (order : RangeOrder) (book : Book)
    (hok : (CreateOrderedBook env order book).2 = .nil) :
    ∃ pkg spine, book.Package = some pkg ∧ pkg.Spine = some spine ∧
      (bookRun env book pkg spine).2 = .nil ∧
      (CreateOrderedBook env order book).1.OrderedFiles =
        (bookRun env book pkg spine).1.1 ++ order.keys (bookRun env book pkg spine).1.2 ∧
      (CreateOrderedBook env order book).1.ItemFilename =
        (CreateOrderedBook env order book).1.OrderedFiles ∧
      book.Archive.Files.length =
        ((bookRun env book pkg spine).1.1 ++ order.keys (bookRun env book pkg spine).1.2).length
          + 3 := by
  cases hpkg : book.Package with
  | none => simp [CreateOrderedBook, hpkg] at hok
  | some pkg =>
    cases hspine : pkg.Spine with
    | none => simp [CreateOrderedBook, hpkg, hspine] at hok
    | some spine =>
      refine ⟨pkg, spine, rfl, hspine, ?_⟩
      rw [CreateOrderedBook_eq env order book pkg spine hpkg hspine] at hok ⊢
      obtain ⟨h1, h2, h3, h4⟩ := finishBook_nil_inv order book _ _ hok
      exact ⟨h1, h2, h3.trans h2.symm, h4⟩

/-! ## Lookups and scans along the spine -/

theorem htmlResult_ne_panic (env : Env) (archive : Archive) (itemIRI : String) :
    htmlResult env archive itemIRI ≠ .panic := by
  unfold htmlResult
  split
  · simp
  · split
    · simp
    · split <;> simp

theorem getResourceById_of_manifest (book : Book) (pkg : Package) (manifest : Manifest)
    (hpkg : book.Package = some pkg) (hman : pkg.Manifest = some manifest) (id : String) :
    getResourceById book id = some (manifest.Item.find? (fun item => item.Id = id)) := by
  simp [getResourceById, hpkg, hman]

/-- With a manifest present no lookup panics, and no document scan does. -/
theorem spinePlans_no_panic (env : Env) (book : Book) (pkg : Package) (manifest : Manifest)
    (spine : Spine) (hpkg : book.Package = some pkg) (hman : pkg.Manifest = some manifest) :
    RefPlan.crash ∉ spinePlans env book pkg spine ∧
      ∀ itemIRI cands, RefPlan.item itemIRI cands .panic ∉ spinePlans env book pkg spine := by
  have key : ∀ ref : Itemref, planRef env book (filepath.Dir pkg.PackageFilename) ref ≠ .crash ∧
      ∀ itemIRI cands,
        planRef env book (filepath.Dir pkg.PackageFilename) ref ≠ .item itemIRI cands .panic := by
    intro ref
    unfold planRef
    rw [getResourceById_of_manifest book pkg manifest hpkg hman]
    cases manifest.Item.find? (fun item => item.Id = ref.Idref) with
    | none => simp
    | some item =>
      by_cases hm : isMarkup item.MediaType = true
      · simp only [hm, if_true]
        refine ⟨by simp, ?_⟩
        intro itemIRI cands h
        injection h with _ _ h3
        exact htmlResult_ne_panic _ _ _ h3
      · simp [hm]
  constructor
  · intro h
    obtain ⟨ref, _, hr⟩ := List.mem_map.mp h
    exact (key ref).1 hr
  · intro itemIRI cands h
    obtain ⟨ref, _, hr⟩ := List.mem_map.mp h
    exact (key ref).2 itemIRI cands hr

theorem finishBook_err (order : RangeOrder) (book : Book) (s : List String × GoMap)
    (msg : String) : (finishBook order book s (.err msg)).2 = .err msg := rfl

theorem finishBook_nil (order : RangeOrder) (book : Book) (s : List String × GoMap)
    (hlen : book.Archive.Files.length = (s.1 ++ order.keys s.2).length + 3) :
    (finishBook order book s .nil).2 = .nil ∧
      (finishBook order book s .nil).1.OrderedFiles = s.1 ++ order.keys s.2 := by
  rw [finishBook, if_neg (not_not.mpr hlen)]
  exact ⟨rfl, rfl⟩

/-! ## What `populateFromXml` builds -/

/-- What `populateFromXml` leaves in a book when it returns no error: the
container path, and the item files as the archive files without the mimetype,
container and root descriptor paths, after those the book already had. -/
theorem populateFromXml_nil (env : Env) (book : Book)
    (hok : (populateFromXml env book).2 = .nil) :
    (populateFromXml env book).1.Archive = book.Archive ∧
      (populateFromXml env book).1.MimetypeFilename = book.MimetypeFilename ∧
      (populateFromXml env book).1.ContainerFilename
        = filepath.Join book.Archive.TmpDir "META-INF/container.xml" ∧
      (populateFromXml env book).1.OrderedFiles = book.OrderedFiles ∧
      (populateFromXml env book).1.ItemFilename = book.ItemFilename ++
        book.Archive.Files.filter (fun file =>
          file ≠ (populateFromXml env book).1.MimetypeFilename
            ∧ file ≠ (populateFromXml env book).1.ContainerFilename
            ∧ file ≠ (populateFromXml env book).1.RootFilename) := by
  cases h1 : ReadFileFromArchive env book.Archive "META-INF/container.xml" with
  | fail e => simp [populateFromXml, h1] at hok
  | ok containerXml =>
    cases h2 : env.UnmarshalContainer containerXml with
    | fail e => simp [populateFromXml, h1, h2] at hok
    | ok container =>
      cases h3 : container.RootFiles with
      | none => simp [populateFromXml, h1, h2, h3] at hok
      | some rootFiles =>
        by_cases h4 : rootFiles.RootFile.length = 1
        · cases h5 : rootFiles.RootFile.head? with
          | none => simp [populateFromXml, h1, h2, h3, h4, h5] at hok
          | some rootFile =>
            cases h6 : ReadFileFromArchive env book.Archive rootFile.FullPath with
            | fail e => simp [populateFromXml, h1, h2, h3, h4, h5, h6] at hok
            | ok rootXml =>
              cases h7 : env.UnmarshalPackage rootXml
                  { Manifest := none, Spine := none, PackageFilename := rootFile.FullPath } with
              | fail e => simp [populateFromXml, h1, h2, h3, h4, h5, h6, h7] at hok
              | ok pkg => simp [populateFromXml, h1, h2, h3, h4, h5, h6, h7]
        · simp [populateFromXml, h1, h2, h3, h4] at hok

/-! ## The resolved order -/

/-- C1. For a book whose `Files` are duplicate-free and hold the mimetype,
container and root descriptor paths (pairwise distinct), whose `ItemFilename` is
`Files` without those three, and whose `OrderedFiles` is empty: when
`CreateOrderedBook` returns no error, the resulting `OrderedFiles`, which is
also the resulting `ItemFilename`, is a permutation of the original
`ItemFilename` and holds no file twice. -/
theorem createOrderedBook_permutation (env : Env) (order : RangeOrder) (book : Book)
    (hnodup : book.Archive.Files.Nodup)
    (hmime : book.MimetypeFilename ∈ book.Archive.Files)
    (hcont : book.ContainerFilename ∈ book.Archive.Files)
    (hroot : book.RootFilename ∈ book.Archive.Files)
    (hmc : book.MimetypeFilename ≠ book.ContainerFilename)
    (hmr : book.MimetypeFilename ≠ book.RootFilename)
    (hcr : book.ContainerFilename ≠ book.RootFilename)
    (hitems : book.ItemFilename = book.Archive.Files.filter (fun file =>
      file ≠ book.MimetypeFilename ∧ file ≠ book.ContainerFilename
        ∧ file ≠ book.RootFilename))
    (hempty : book.OrderedFiles = [])
    (hok : (CreateOrderedBook env order book).2 = .nil) :
    (CreateOrderedBook env order book).1.OrderedFiles.Perm book.ItemFilename ∧
      (CreateOrderedBook env order book).1.ItemFilename =
        (CreateOrderedBook env order book).1.OrderedFiles ∧
      (CreateOrderedBook env order book).1.OrderedFiles.Nodup := by
  obtain ⟨pkg, spine, _, _, _, hord, hitem, hlen⟩ := createOrderedBook_nil_inv env order book hok
  have hcount := length_filter_three book.Archive.Files _ _ _ hnodup hmime hcont hroot hmc hmr hcr
  rw [← hitems] at hcount
  have hnd : book.ItemFilename.Nodup := by rw [hitems]; exact hnodup.filter _
  have hmap : book.ItemFilename.foldl GoMap.set [] = book.ItemFilename :=
    GoMap.foldl_set_of_nodup _ [] (by simpa using hnd)
  have hkeep : Keeps (book.OrderedFiles, book.ItemFilename.foldl GoMap.set [])
      (bookRun env book pkg spine).1 :=
    keeps_runPlans _ _ (by rw [hmap]; exact hnd)
  have hkeys := order.perm (bookRun env book pkg spine).1.2
  have hsize : size (bookRun env book pkg spine).1
      = size (book.OrderedFiles, book.ItemFilename.foldl GoMap.set []) := by
    have := hkeys.length_eq
    simp only [size, hmap, hempty, List.length_nil, List.length_append] at hlen ⊢
    omega
  have hperm := hkeep.2.2 hsize
  rw [hmap, hempty, List.nil_append] at hperm
  have hfinal : (CreateOrderedBook env order book).1.OrderedFiles.Perm book.ItemFilename := by
    rw [hord]
    exact (List.Perm.append_left _ hkeys).trans hperm
  exact ⟨hfinal, hitem, hfinal.nodup_iff.mpr hnd⟩

theorem placeItem_size_eq (s : List String × GoMap) (itemIRI : String)
    (h : size (placeItem s itemIRI) = size s) : itemIRI ∈ s.2 := by
  by_contra hc
  unfold placeItem at h
  rw [GoMap.delete_of_not_mem _ _ hc] at h
  simp only [size, List.length_append, List.length_singleton] at h
  omega

/-- A loop over items whose documents all scan without error runs to its end. -/
theorem runPlans_nil_of_items (plans : List RefPlan) (s : List String × GoMap)
    (hall : ∀ p ∈ plans, ∃ itemIRI cands, p = RefPlan.item itemIRI cands .nil) :
    (runPlans plans s).2 = .nil := by
  induction plans generalizing s with
  | nil => rfl
  | cons p ps ih =>
    obtain ⟨i, c, rfl⟩ := hall _ (List.mem_cons_self _ _)
    simp only [runPlans]
    exact ih _ (fun q hq => hall q (List.mem_cons_of_mem _ hq))

/-- When every plan places an item whose document scans without error: the loop
gains no file exactly when the item paths are distinct and unassigned and no
item is offered before it is placed. -/
theorem runPlans_fits_iff (plans : List RefPlan) (s : List String × GoMap) (hnd : s.2.Nodup)
    (hall : ∀ p ∈ plans, ∃ itemIRI cands, p = .item itemIRI cands .nil) :
    size (runPlans plans s).1 = size s ↔
      ((planPaths plans).Nodup ∧ (∀ i ∈ planPaths plans, i ∈ s.2) ∧ NotOfferedEarlier plans) := by
  induction plans generalizing s with
  | nil => simp [runPlans, planPaths, NotOfferedEarlier]
  | cons p ps ih =>
    obtain ⟨itemIRI, cands, rfl⟩ := hall p (List.mem_cons_self _ _)
    have hk := keeps_foldl_discover cands s hnd
    have hkp := keeps_placeItem (cands.foldl discover s) itemIRI hk.1.1
    have hkr := keeps_runPlans ps (placeItem (cands.foldl discover s) itemIRI) hkp.1
    have hih := ih (placeItem (cands.foldl discover s) itemIRI) hkp.1
      (fun p hp => hall p (List.mem_cons_of_mem _ hp))
    have hmem : ∀ x, x ∈ (placeItem (cands.foldl discover s) itemIRI).2 ↔
        (x ∈ s.2 ∧ x ∉ cands) ∧ x ≠ itemIRI := by
      intro x
      unfold placeItem
      rw [GoMap.mem_delete, mem_foldl_discover_files]
    simp only [runPlans, planPaths, NotOfferedEarlier, List.nodup_cons, List.mem_cons]
    constructor
    · intro hsize
      have h1 : size (placeItem (cands.foldl discover s) itemIRI)
          = size (cands.foldl discover s) := by
        have := hkp.2.1
        have := hkr.2.1
        have := hk.2
        omega
      have h2 : size (runPlans ps (placeItem (cands.foldl discover s) itemIRI)).1
          = size (placeItem (cands.foldl discover s) itemIRI) := by
        have := hk.2
        omega
      have hitem := (mem_foldl_discover_files cands s itemIRI).mp
        (placeItem_size_eq _ _ h1)
      obtain ⟨hn, hin, hno⟩ := hih.mp h2
      refine ⟨⟨?_, hn⟩, ?_, hitem.2, ?_, hno⟩
      · intro hmemb
        exact ((hmem itemIRI).mp (hin itemIRI hmemb)).2 rfl
      · rintro i (rfl | hi)
        · exact hitem.1
        · exact ((hmem i).mp (hin i hi)).1.1
      · intro later hl
        exact ((hmem later).mp (hin later hl)).1.2
    · rintro ⟨⟨hfirst, hn⟩, hin, hown, hlater, hno⟩
      have hitem : itemIRI ∈ (cands.foldl discover s).2 :=
        (mem_foldl_discover_files cands s itemIRI).mpr ⟨hin itemIRI (Or.inl rfl), hown⟩
      have hplace : size (placeItem (cands.foldl discover s) itemIRI) = size s := by
        have := length_delete_of_mem _ itemIRI hk.1.1 hitem
        have h2 := hk.2
        simp only [size, placeItem, List.length_append, List.length_singleton] at h2 ⊢
        omega
      have hrest := hih.mpr ⟨hn, fun i hi => (hmem i).mpr
        ⟨⟨hin i (Or.inr hi), hlater i hi⟩, fun e => hfirst (e ▸ hi)⟩, hno⟩
      exact hrest.trans hplace

/-- C2, amended. For a book as in C1 with a valid spine (every idref is the id of
a manifest item, and the document of every markup item a spine idref names is
read and tokenized without error): `CreateOrderedBook` returns no error, and the
length of the resolved order plus the three structural files is the number of
files of the archive, exactly when the spine items resolve to pairwise distinct
content files and none of them is offered as a resource by its own document or
by the document of an earlier spine item. -/
theorem createOrderedBook_total (env : Env) (order : RangeOrder) (book : Book) (pkg : Package)
    (manifest : Manifest) (spine : Spine)
    (hnodup : book.Archive.Files.Nodup)
    (hmime : book.MimetypeFilename ∈ book.Archive.Files)
    (hcont : book.ContainerFilename ∈ book.Archive.Files)
    (hroot : book.RootFilename ∈ book.Archive.Files)
    (hmc : book.MimetypeFilename ≠ book.ContainerFilename)
    (hmr : book.MimetypeFilename ≠ book.RootFilename)
    (hcr : book.ContainerFilename ≠ book.RootFilename)
    (hitems : book.ItemFilename = book.Archive.Files.filter (fun file =>
      file ≠ book.MimetypeFilename ∧ file ≠ book.ContainerFilename
        ∧ file ≠ book.RootFilename))
    (hempty : book.OrderedFiles = [])
    (hpkg : book.Package = some pkg) (hman : pkg.Manifest = some manifest)
    (hspine : pkg.Spine = some spine)
    (hids : ∀ ref ∈ spine.Itemref, ∃ item ∈ manifest.Item, item.Id = ref.Idref)
    (hdocs : ∀ item ∈ manifest.Item, (∃ ref ∈ spine.Itemref, ref.Idref = item.Id) →
      isMarkup item.MediaType = true →
        htmlResult env book.Archive
          (resolveItemIRI book (filepath.Dir pkg.PackageFilename) item) = .nil) :
    ((CreateOrderedBook env order book).2 = .nil ∧
      (CreateOrderedBook env order book).1.OrderedFiles.length + 3
        = book.Archive.Files.length) ↔
    ((spinePaths env book pkg spine).Nodup ∧
      (∀ p ∈ spinePaths env book pkg spine, p ∈ book.ItemFilename) ∧
      NotOfferedEarlier (spinePlans env book pkg spine)) := by
  have hcount := length_filter_three book.Archive.Files _ _ _ hnodup hmime hcont hroot hmc hmr hcr
  rw [← hitems] at hcount
  have hnd : book.ItemFilename.Nodup := by rw [hitems]; exact hnodup.filter _
  have hmap : book.ItemFilename.foldl GoMap.set [] = book.ItemFilename :=
    GoMap.foldl_set_of_nodup _ [] (by simpa using hnd)
  have hall : ∀ p ∈ spinePlans env book pkg spine, ∃ itemIRI cands, p = .item itemIRI cands .nil := by
    intro p hp
    obtain ⟨ref, href, rfl⟩ := List.mem_map.mp hp
    obtain ⟨item0, hitem0, hid0⟩ := hids ref href
    unfold planRef
    rw [getResourceById_of_manifest book pkg manifest hpkg hman]
    cases hfind : manifest.Item.find? (fun item => item.Id = ref.Idref) with
    | none =>
      have := List.find?_eq_none.mp hfind item0 hitem0
      simp [hid0] at this
    | some item =>
      have hmem := List.mem_of_find?_eq_some hfind
      have hid : item.Id = ref.Idref := by simpa using List.find?_some hfind
      by_cases hm : isMarkup item.MediaType = true
      · simp only [hm, if_true]
        exact ⟨_, _, by rw [hdocs item hmem ⟨ref, href, hid.symm⟩ hm]⟩
      · simp only [hm]
        exact ⟨_, _, rfl⟩
  have hiff := runPlans_fits_iff (spinePlans env book pkg spine)
    (book.OrderedFiles, book.ItemFilename.foldl GoMap.set []) (by rw [hmap]; exact hnd) hall
  have hnil : (bookRun env book pkg spine).2 = .nil := runPlans_nil_of_items _ _ hall
  have hrun : bookRun env book pkg spine = runPlans (spinePlans env book pkg spine)
    (book.OrderedFiles, book.ItemFilename.foldl GoMap.set []) := rfl
  rw [← hrun, hmap] at hiff
  have hiff2 : size (bookRun env book pkg spine).1 = size (book.OrderedFiles, book.ItemFilename)
      ↔ ((spinePaths env book pkg spine).Nodup ∧
        (∀ p ∈ spinePaths env book pkg spine, p ∈ book.ItemFilename) ∧
        NotOfferedEarlier (spinePlans env book pkg spine)) := hiff
  have hkeys := (order.perm (bookRun env book pkg spine).1.2).length_eq
  have hsize : size (bookRun env book pkg spine).1 = size (book.OrderedFiles, book.ItemFilename)
      ↔ book.Archive.Files.length =
        ((bookRun env book pkg spine).1.1 ++ order.keys (bookRun env book pkg spine).1.2).length
          + 3 := by
    simp only [size, hempty, List.length_nil, List.length_append]
    omega
  rw [← hiff2, hsize, CreateOrderedBook_eq env order book pkg spine hpkg hspine, hnil]
  constructor
  · rintro ⟨h1, _⟩
    exact (finishBook_nil_inv order book _ _ h1).2.2.2
  · intro hlen
    obtain ⟨h1, h2⟩ := finishBook_nil order book _ hlen
    exact ⟨h1, by rw [h2]; exact hlen.symm⟩

/-- For a book whose spine holds an itemref whose idref is the id of no manifest
item, `CreateOrderedBook` never returns success, and when the package has a
manifest it returns an error. -/
theorem createOrderedBook_missing_id (env : Env) (order : RangeOrder) (book : Book)
    (pkg : Package) (spine : Spine) (ref : Itemref)
    (hpkg : book.Package = some pkg) (hspine : pkg.Spine = some spine)
    (href : ref ∈ spine.Itemref)
    (hmiss : ∀ manifest, pkg.Manifest = some manifest →
      ∀ item ∈ manifest.Item, item.Id ≠ ref.Idref) :
    (CreateOrderedBook env order book).2 ≠ .nil ∧
      (∀ manifest, pkg.Manifest = some manifest →
        ∃ msg, (CreateOrderedBook env order book).2 = .err msg) := by
  have hfind : ∀ manifest, pkg.Manifest = some manifest →
      manifest.Item.find? (fun item => item.Id = ref.Idref) = none := by
    intro manifest hman
    rw [List.find?_eq_none]
    intro item hitem
    simpa using hmiss manifest hman item hitem
  constructor
  · intro hnil
    obtain ⟨pkg2, spine2, hpkg2, hspine2, hrun, _⟩ :=
      createOrderedBook_nil_inv env order book hnil
    rw [hpkg] at hpkg2
    cases hpkg2
    rw [hspine] at hspine2
    cases hspine2
    obtain ⟨itemIRI, cands, hplan⟩ := runPlans_nil_inv (spinePlans env book pkg spine)
      (book.OrderedFiles, book.ItemFilename.foldl GoMap.set []) hrun
      (planRef env book (filepath.Dir pkg.PackageFilename) ref)
      (List.mem_map.mpr ⟨ref, href, rfl⟩)
    cases hman : pkg.Manifest with
    | none => simp [planRef, getResourceById, hpkg, hman] at hplan
    | some manifest =>
      simp [planRef, getResourceById, hpkg, hman, hfind manifest hman] at hplan
  · intro manifest hman
    obtain ⟨hcrash, hhtml⟩ := spinePlans_no_panic env book pkg manifest spine hpkg hman
    have hplan : ∃ msg, RefPlan.missing msg ∈ spinePlans env book pkg spine := by
      refine ⟨book.Archive.ArchiveFilename ++ " Container is missing an item with id "
        ++ ref.Idref, List.mem_map.mpr ⟨ref, href, ?_⟩⟩
      unfold planRef
      rw [getResourceById_of_manifest book pkg manifest hpkg hman, hfind manifest hman]
    obtain ⟨msg, hmsg⟩ := runPlans_missing (spinePlans env book pkg spine)
      (book.OrderedFiles, book.ItemFilename.foldl GoMap.set []) hcrash hhtml hplan
    have hrun : (bookRun env book pkg spine).2 = .err msg := hmsg
    exact ⟨msg, by rw [CreateOrderedBook_eq env order book pkg spine hpkg hspine, hrun]; rfl⟩

/-- C5. In a run of `CreateOrderedBook` that starts with no ordered files and
returns no error, `OrderedFiles` splits into the files placed by the spine loop
(every spine item, and otherwise only offered resources) and the remainder
(no spine item, no offered resource); a file of the unassigned set that is
neither the resolved path of a spine item nor a resource a spine markup
document offers is in the remainder, once, and nowhere else. -/
theorem createOrderedBook_unassigned_fallback (env : Env) (order : RangeOrder) (book : Book)
    (pkg : Package) (spine : Spine) (f : String)
    (hpkg : book.Package = some pkg) (hspine : pkg.Spine = some spine)
    (hempty : book.OrderedFiles = [])
    (hok : (CreateOrderedBook env order book).2 = .nil)
    (hf : f ∈ book.ItemFilename)
    (hnotspine : f ∉ spinePaths env book pkg spine)
    (hnotcand : f ∉ spineCandidates env book pkg spine) :
    ∃ placed rest, (CreateOrderedBook env order book).1.OrderedFiles = placed ++ rest ∧
      (∀ x ∈ placed, x ∈ spinePaths env book pkg spine ∨ x ∈ spineCandidates env book pkg spine) ∧
      (∀ p ∈ spinePaths env book pkg spine, p ∈ placed) ∧
      (∀ x ∈ rest, x ∉ spinePaths env book pkg spine ∧ x ∉ spineCandidates env book pkg spine) ∧
      f ∉ placed ∧ rest.count f = 1 ∧
      (CreateOrderedBook env order book).1.OrderedFiles.count f = 1 := by
  obtain ⟨pkg2, spine2, hpkg2, hspine2, hnil, hord, _, _⟩ :=
    createOrderedBook_nil_inv env order book hok
  rw [hpkg] at hpkg2
  cases hpkg2
  rw [hspine] at hspine2
  cases hspine2
  have hrun : bookRun env book pkg spine = runPlans (spinePlans env book pkg spine)
    (book.OrderedFiles, book.ItemFilename.foldl GoMap.set []) := rfl
  obtain ⟨out, hout, hfrom, hall⟩ := runPlans_ordered (spinePlans env book pkg spine)
    (book.OrderedFiles, book.ItemFilename.foldl GoMap.set [])
  rw [← hrun] at hout hall
  simp only [hempty, List.nil_append] at hout
  have hnd : (bookRun env book pkg spine).1.2.Nodup :=
    (keeps_runPlans (spinePlans env book pkg spine)
      (book.OrderedFiles, book.ItemFilename.foldl GoMap.set [])
      (GoMap.nodup_foldl_set _ _ List.nodup_nil)).1
  have hkeys := order.perm (bookRun env book pkg spine).1.2
  have hfplaced : f ∉ (bookRun env book pkg spine).1.1 := by
    rw [hout]
    intro hmem
    rcases hfrom f hmem with h | h
    · exact hnotspine h
    · exact hnotcand h
  have hfleft : f ∈ (bookRun env book pkg spine).1.2 :=
    (mem_runPlans_files (spinePlans env book pkg spine)
      (book.OrderedFiles, book.ItemFilename.foldl GoMap.set []) f).2.1
      ((GoMap.mem_foldl_set _ _ _).mpr (Or.inr hf)) hnotspine hnotcand
  have hcount : (order.keys (bookRun env book pkg spine).1.2).count f = 1 := by
    rw [hkeys.count_eq]
    exact List.count_eq_one_of_mem hnd hfleft
  refine ⟨(bookRun env book pkg spine).1.1, order.keys (bookRun env book pkg spine).1.2, hord,
    ?_, ?_, ?_, hfplaced, hcount, ?_⟩
  · rw [hout]; exact hfrom
  · rw [hout]; exact hall hnil
  · intro x hx
    exact (mem_runPlans_files (spinePlans env book pkg spine)
      (book.OrderedFiles, book.ItemFilename.foldl GoMap.set []) x).2.2 hnil
      (hkeys.mem_iff.mp hx)
  · rw [hord, List.count_append, hcount, List.count_eq_zero_of_not_mem hfplaced]

theorem spineRun_eq (env : Env) (book : Book) (pkg : Package) (spine : Spine) :
    (spineRun env book pkg spine).book.OrderedFiles = (bookRun env book pkg spine).1.1 ∧
      (spineRun env book pkg spine).files = (bookRun env book pkg spine).1.2 ∧
      (spineRun env book pkg spine).result = (bookRun env book pkg spine).2 := by
  unfold spineRun bookRun
  rw [spineLoop_eq]
  exact ⟨rfl, rfl, rfl⟩

/-- C6, amended. Two runs of `CreateOrderedBook` on the same book return the same
error or both none, and their `OrderedFiles` agree up to the order of the
remainder: both start with the same part, the files the spine loop placed, and
what follows is in each run the unassigned files the loop left, in the order
`range` visited them in that run (nothing when the loop failed), so one
remainder is a permutation of the other. -/
theorem createOrderedBook_deterministic_up_to_range (env : Env) (order1 order2 : RangeOrder)
    (book : Book) :
    (CreateOrderedBook env order1 book).2 = (CreateOrderedBook env order2 book).2 ∧
      ∃ placed rest1 rest2,
        (CreateOrderedBook env order1 book).1.OrderedFiles = placed ++ rest1 ∧
        (CreateOrderedBook env order2 book).1.OrderedFiles = placed ++ rest2 ∧
        rest1.Perm rest2 ∧
        ∀ pkg spine, book.Package = some pkg → pkg.Spine = some spine →
          placed = (spineRun env book pkg spine).book.OrderedFiles ∧
          rest1 = (if (spineRun env book pkg spine).result = .nil then
            order1.keys (spineRun env book pkg spine).files else []) ∧
          rest2 = (if (spineRun env book pkg spine).result = .nil then
            order2.keys (spineRun env book pkg spine).files else []) := by
  cases hpkg : book.Package with
  | none =>
    simp only [CreateOrderedBook, hpkg]
    exact ⟨trivial, book.OrderedFiles, [], [], by simp, by simp, List.Perm.refl _,
      fun _ _ h => by cases h⟩
  | some pkg =>
    cases hspine : pkg.Spine with
    | none =>
      simp only [CreateOrderedBook, hpkg, hspine]
      refine ⟨trivial, book.OrderedFiles, [], [], by simp, by simp, List.Perm.refl _, ?_⟩
      intro pkg2 spine2 h1 h2
      cases h1
      rw [hspine] at h2
      cases h2
    | some spine =>
      rw [CreateOrderedBook_eq env order1 book pkg spine hpkg hspine,
        CreateOrderedBook_eq env order2 book pkg spine hpkg hspine]
      obtain ⟨e1, e2, e3⟩ := spineRun_eq env book pkg spine
      have h1 := order1.perm (bookRun env book pkg spine).1.2
      have h2 := order2.perm (bookRun env book pkg spine).1.2
      have h12 : (order1.keys (bookRun env book pkg spine).1.2).Perm
          (order2.keys (bookRun env book pkg spine).1.2) := h1.trans h2.symm
      have hlen : ((bookRun env book pkg spine).1.1
            ++ order1.keys (bookRun env book pkg spine).1.2).length
          = ((bookRun env book pkg spine).1.1
            ++ order2.keys (bookRun env book pkg spine).1.2).length := by
        simp [h12.length_eq]
      have hsame : ∀ (rest1 rest2 : List String),
          (rest1 = if (bookRun env book pkg spine).2 = .nil then
            order1.keys (bookRun env book pkg spine).1.2 else []) →
          (rest2 = if (bookRun env book pkg spine).2 = .nil then
            order2.keys (bookRun env book pkg spine).1.2 else []) →
          ∀ pkg2 spine2, some pkg = some pkg2 → pkg2.Spine = some spine2 →
            (bookRun env book pkg spine).1.1 = (spineRun env book pkg2 spine2).book.OrderedFiles ∧
            rest1 = (if (spineRun env book pkg2 spine2).result = .nil then
              order1.keys (spineRun env book pkg2 spine2).files else []) ∧
            rest2 = (if (spineRun env book pkg2 spine2).result = .nil then
              order2.keys (spineRun env book pkg2 spine2).files else []) := by
        intro rest1 rest2 hr1 hr2 pkg2 spine2 hp hs
        cases hp
        rw [hspine] at hs
        cases hs
        rw [e1, e2, e3]
        exact ⟨rfl, hr1, hr2⟩
      cases hres : (bookRun env book pkg spine).2 with
      | nil =>
        rw [hres] at hsame
        simp only [finishBook, hlen]
        by_cases hc : book.Archive.Files.length ≠ ((bookRun env book pkg spine).1.1
            ++ order2.keys (bookRun env book pkg spine).1.2).length + 3
        · rw [if_pos hc, if_pos hc]
          exact ⟨rfl, _, _, _, rfl, rfl, h12, hsame _ _ (by simp) (by simp)⟩
        · rw [if_neg hc, if_neg hc]
          exact ⟨rfl, _, _, _, rfl, rfl, h12, hsame _ _ (by simp) (by simp)⟩
      | err e =>
        rw [hres] at hsame
        exact ⟨rfl, (bookRun env book pkg spine).1.1, [], [], by simp [finishBook],
          by simp [finishBook], List.Perm.refl _, hsame _ _ (by simp) (by simp)⟩
      | panic =>
        rw [hres] at hsame
        exact ⟨rfl, (bookRun env book pkg spine).1.1, [], [], by simp [finishBook],
          by simp [finishBook], List.Perm.refl _, hsame _ _ (by simp) (by simp)⟩

/-! ## Discovery precedence -/

theorem tokenCandidates_eq_map_filter (tmpDir baseURL : String) (tokens : List Token) :
    tokenCandidates tmpDir baseURL tokens =
      (tokens.filter (fun t => tokenResourceURL t ≠ "")).map
        (fun t => resourceIRI tmpDir baseURL (tokenResourceURL t)) := by
  induction tokens with
  | nil => rfl
  | cons t ts ih =>
    unfold tokenCandidates at ih ⊢
    by_cases h : tokenResourceURL t = ""
    · simp [h, ih]
    · simp [h, ih]

theorem tokenResourceURL_img (t : Token) (hk : t.Kind = .SelfClosingTagToken)
    (hd : t.Data = "img") : tokenResourceURL t = getAttr t "src" := by
  unfold tokenResourceURL
  rw [hk]
  simp only [hd, if_true]
  by_cases h : getAttr t "src" = ""
  · simp [h]
  · simp [h]

theorem foldl_discover_skip (l : List String) (s : List String × GoMap)
    (h : ∀ c ∈ l, c ∉ s.2) : l.foldl discover s = s := by
  induction l with
  | nil => rfl
  | cons c cs ih =>
    have hc : discover s c = s := by
      simp [discover, h c (List.mem_cons_self _ _)]
    rw [List.foldl_cons, hc]
    exact ih (fun x hx => h x (List.mem_cons_of_mem _ hx))

/-- Candidates of which only `f` may still be unassigned amount to offering `f`
once. -/
theorem foldl_discover_one (f : String) (l : List String) (s : List String × GoMap)
    (h : ∀ c ∈ l, c ∉ s.2 ∨ c = f) (hf : f ∈ l) : l.foldl discover s = discover s f := by
  induction l with
  | nil => cases hf
  | cons c cs ih =>
    rw [List.foldl_cons]
    by_cases hcf : c = f
    · subst hcf
      apply foldl_discover_skip
      intro x hx hmem
      have hx2 := (mem_discover_files s c x).mp hmem
      rcases h x (List.mem_cons_of_mem _ hx) with h1 | h1
      · exact h1 hx2.1
      · exact hx2.2 h1
    · have hc : discover s c = s := by
        rcases h c (List.mem_cons_self _ _) with h1 | h1
        · simp [discover, h1]
        · exact absurd h1 hcf
      rw [hc]
      apply ih (fun x hx => h x (List.mem_cons_of_mem _ hx))
      rcases List.mem_cons.mp hf with h1 | h1
      · exact absurd h1.symm hcf
      · exact h1

theorem tokenCandidates_append (tmpDir baseURL : String) (l1 l2 : List Token) :
    tokenCandidates tmpDir baseURL (l1 ++ l2)
      = tokenCandidates tmpDir baseURL l1 ++ tokenCandidates tmpDir baseURL l2 := by
  simp [tokenCandidates, List.filterMap_append]

theorem tokenCandidates_cons_img (tmpDir baseURL : String) (t : Token) (l : List Token)
    (hk : t.Kind = .SelfClosingTagToken) (hd : t.Data = "img") (hsrc : getAttr t "src" ≠ "") :
    tokenCandidates tmpDir baseURL (t :: l)
      = resourceIRI tmpDir baseURL (getAttr t "src") :: tokenCandidates tmpDir baseURL l := by
  have h := tokenResourceURL_img t hk hd
  simp [tokenCandidates, h, hsrc]

/-- C4, amended. When the spine loop reaches a markup item whose document is read
and tokenized without error and holds two self-closing `img` tags with `src`
values that resolve to two distinct files, both in the unassigned set, neither
offered earlier in the document, and when no token after the first of the two
tags offers a file that is still unassigned other than these two (the tokens
before it may offer anything else): the loop appends the two files, in document
order, and then the item's own path, so that both files stand immediately
before that path in `OrderedFiles`, after whatever the earlier tokens placed;
neither file is in the unassigned set afterwards. -/
theorem spineLoop_discovery_precedence (env : Env) (baseIRI : String) (itemRef : Itemref)
    (rest : List Itemref) (book : Book) (m : GoMap) (item : Item) (relIRI doc : String)
    (pre mid post : List Token) (t1 t2 : Token)
    (hget : getResourceById book itemRef.Idref = some (some item))
    (hmark : item.MediaType = "application/xhtml+xml" ∨ item.MediaType = "text/html")
    (hrel : filepath.Rel book.Archive.TmpDir (resolveItemIRI book baseIRI item) = .ok relIRI)
    (hread : ReadFileFromArchive env book.Archive relIRI = .ok doc)
    (herr : (env.Tokenize doc).err = none)
    (htok : (env.Tokenize doc).tokens = pre ++ t1 :: (mid ++ t2 :: post))
    (himg1 : t1.Kind = .SelfClosingTagToken ∧ t1.Data = "img" ∧ getAttr t1 "src" ≠ "")
    (himg2 : t2.Kind = .SelfClosingTagToken ∧ t2.Data = "img" ∧ getAttr t2 "src" ≠ "")
    (hne : resourceIRI book.Archive.TmpDir (path.Dir relIRI) (getAttr t1 "src")
      ≠ resourceIRI book.Archive.TmpDir (path.Dir relIRI) (getAttr t2 "src"))
    (hf1 : resourceIRI book.Archive.TmpDir (path.Dir relIRI) (getAttr t1 "src") ∈ m)
    (hf2 : resourceIRI book.Archive.TmpDir (path.Dir relIRI) (getAttr t2 "src") ∈ m)
    (hpre1 : resourceIRI book.Archive.TmpDir (path.Dir relIRI) (getAttr t1 "src")
      ∉ tokenCandidates book.Archive.TmpDir (path.Dir relIRI) pre)
    (hpre2 : resourceIRI book.Archive.TmpDir (path.Dir relIRI) (getAttr t2 "src")
      ∉ tokenCandidates book.Archive.TmpDir (path.Dir relIRI) pre)
    (hafter : ∀ c ∈ tokenCandidates book.Archive.TmpDir (path.Dir relIRI) (mid ++ post),
      c ∉ m ∨ c ∈ tokenCandidates book.Archive.TmpDir (path.Dir relIRI) pre
        ∨ c = resourceIRI book.Archive.TmpDir (path.Dir relIRI) (getAttr t1 "src")
        ∨ c = resourceIRI book.Archive.TmpDir (path.Dir relIRI) (getAttr t2 "src")) :
    ∃ earlier tail, (spineLoop env baseIRI (itemRef :: rest) book m).book.OrderedFiles =
        book.OrderedFiles ++ earlier ++
          [resourceIRI book.Archive.TmpDir (path.Dir relIRI) (getAttr t1 "src"),
            resourceIRI book.Archive.TmpDir (path.Dir relIRI) (getAttr t2 "src"),
            resolveItemIRI book baseIRI item] ++ tail ∧
      (∀ x ∈ earlier, x ∈ tokenCandidates book.Archive.TmpDir (path.Dir relIRI) pre) ∧
      resourceIRI book.Archive.TmpDir (path.Dir relIRI) (getAttr t1 "src")
        ∉ (spineLoop env baseIRI (itemRef :: rest) book m).files ∧
      resourceIRI book.Archive.TmpDir (path.Dir relIRI) (getAttr t2 "src")
        ∉ (spineLoop env baseIRI (itemRef :: rest) book m).files := by
  generalize hF1 : resourceIRI book.Archive.TmpDir (path.Dir relIRI) (getAttr t1 "src") = f1
    at hne hf1 hpre1 hafter ⊢
  generalize hF2 : resourceIRI book.Archive.TmpDir (path.Dir relIRI) (getAttr t2 "src") = f2
    at hne hf2 hpre2 hafter ⊢
  generalize hcp : tokenCandidates book.Archive.TmpDir (path.Dir relIRI) pre = cp
    at hpre1 hpre2 hafter ⊢
  have hm : isMarkup item.MediaType = true := by simpa [isMarkup] using hmark
  have hcands : htmlCandidates env book.Archive (resolveItemIRI book baseIRI item) =
      cp ++ f1 :: (tokenCandidates book.Archive.TmpDir (path.Dir relIRI) mid ++
        f2 :: tokenCandidates book.Archive.TmpDir (path.Dir relIRI) post) := by
    simp only [htmlCandidates, hrel, hread, htok, tokenCandidates_append,
      tokenCandidates_cons_img _ _ t1 _ himg1.1 himg1.2.1 himg1.2.2,
      tokenCandidates_cons_img _ _ t2 _ himg2.1 himg2.2.1 himg2.2.2, hF1, hF2, hcp]
  have hres : htmlResult env book.Archive (resolveItemIRI book baseIRI item) = .nil := by
    simp only [htmlResult, hrel, hread, herr]
  rw [tokenCandidates_append] at hafter
  generalize tokenCandidates book.Archive.TmpDir (path.Dir relIRI) mid = cm at hcands hafter
  generalize tokenCandidates book.Archive.TmpDir (path.Dir relIRI) post = cq at hcands hafter
  have hplan : planRef env book baseIRI itemRef =
      .item (resolveItemIRI book baseIRI item) (cp ++ f1 :: (cm ++ f2 :: cq)) .nil := by
    simp only [planRef, hget, hm, if_true, hcands, hres]
  -- the state after the tokens before the first image
  obtain ⟨earlier, hearlier, hfrom⟩ := foldl_discover_ordered cp (book.OrderedFiles, m)
  have hmemp := fun x => mem_foldl_discover_files cp (book.OrderedFiles, m) x
  generalize hsp : cp.foldl discover (book.OrderedFiles, m) = sp at hearlier hmemp
  have h1in : f1 ∈ sp.2 := (hmemp f1).mpr ⟨hf1, hpre1⟩
  have hd1 : discover sp f1 = (sp.1 ++ [f1], sp.2.delete f1) := by simp [discover, h1in]
  have h2in : f2 ∈ (sp.1 ++ [f1], sp.2.delete f1).2 :=
    (GoMap.mem_delete _ _ _).mpr ⟨(hmemp f2).mpr ⟨hf2, hpre2⟩, fun e => hne e.symm⟩
  have hd2 : discover (sp.1 ++ [f1], sp.2.delete f1) f2
      = (sp.1 ++ [f1] ++ [f2], (sp.2.delete f1).delete f2) := by
    simp only [discover, h2in, if_true]
  have hgone : ∀ c, (c ∉ m ∨ c ∈ cp ∨ c = f1 ∨ c = f2) →
      c ∉ (sp.2.delete f1).delete f2 := by
    intro c hc hmem
    rw [GoMap.mem_delete, GoMap.mem_delete, hmemp] at hmem
    rcases hc with h | h | h | h
    · exact h hmem.1.1.1
    · exact hmem.1.1.2 h
    · exact hmem.1.2 h
    · exact hmem.2 h
  have hmid : (cm ++ [f2]).foldl discover (sp.1 ++ [f1], sp.2.delete f1)
      = (sp.1 ++ [f1] ++ [f2], (sp.2.delete f1).delete f2) := by
    rw [foldl_discover_one f2 (cm ++ [f2]) _ ?_ (by simp), hd2]
    intro c hc
    rcases List.mem_append.mp hc with hc | hc
    · by_cases hcf : c = f2
      · exact Or.inr hcf
      · refine Or.inl ?_
        intro hmem
        have hmem2 : c ∈ sp.2.delete f1 := hmem
        rw [GoMap.mem_delete, hmemp] at hmem2
        rcases hafter c (List.mem_append_left _ hc) with h | h | h | h
        · exact h hmem2.1.1
        · exact hmem2.1.2 h
        · exact hmem2.2 h
        · exact hcf h
    · exact Or.inr (by simpa using hc)
  have hfold : (cp ++ f1 :: (cm ++ f2 :: cq)).foldl discover (book.OrderedFiles, m)
      = (sp.1 ++ [f1] ++ [f2], (sp.2.delete f1).delete f2) := by
    have hsplit : cp ++ f1 :: (cm ++ f2 :: cq) = cp ++ ([f1] ++ ((cm ++ [f2]) ++ cq)) := by
      simp
    rw [hsplit, List.foldl_append, hsp, List.foldl_append, List.foldl_cons, List.foldl_nil, hd1,
      List.foldl_append, hmid]
    exact foldl_discover_skip _ _
      (fun c hc => hgone c (hafter c (List.mem_append_right _ hc)))
  rw [spineLoop_eq, List.map_cons, hplan]
  simp only [runPlans, hfold, placeItem]
  obtain ⟨tail, htail, _⟩ := runPlans_ordered (rest.map (planRef env book baseIRI))
    (sp.1 ++ [f1] ++ [f2] ++ [resolveItemIRI book baseIRI item],
      ((sp.2.delete f1).delete f2).delete (resolveItemIRI book baseIRI item))
  have hsub := fun x => (mem_runPlans_files (rest.map (planRef env book baseIRI))
    (sp.1 ++ [f1] ++ [f2] ++ [resolveItemIRI book baseIRI item],
      ((sp.2.delete f1).delete f2).delete (resolveItemIRI book baseIRI item)) x).1
  refine ⟨earlier, tail, ?_, fun x hx => (hfrom x hx).1, ?_, ?_⟩
  · simp only [withOrdered_OrderedFiles]
    rw [htail, hearlier]
    simp
  · intro h
    have := hsub _ h
    simp [GoMap.mem_delete] at this
  · intro h
    have := hsub _ h
    simp [GoMap.mem_delete] at this

/-! ## The sample book -/

/-- The sample book is what `ExtractBookFromArchive` makes of the sample
archive. -/
theorem sampleBook_extracted :
    ExtractBookFromArchive sampleEnv sampleArchive = (some sampleBook, .nil) := by
  decide

theorem sampleBook_ordered :
    (CreateOrderedBook sampleEnv rangeStored sampleBook).1.OrderedFiles =
      ["/t/OEBPS/a.png", "/t/OEBPS/b.png", "/t/OEBPS/ch1.xhtml", "/t/OEBPS/extra.css",
        "/t/OEBPS/notes.txt"] := by
  decide

/-- C1 at the sample book: the hypotheses hold there and the run succeeds. -/
theorem createOrderedBook_permutation_witness :
    (CreateOrderedBook sampleEnv rangeStored sampleBook).1.OrderedFiles.Perm
        sampleBook.ItemFilename ∧
      (CreateOrderedBook sampleEnv rangeStored sampleBook).1.ItemFilename =
        (CreateOrderedBook sampleEnv rangeStored sampleBook).1.OrderedFiles ∧
      (CreateOrderedBook sampleEnv rangeStored sampleBook).1.OrderedFiles.Nodup :=
  createOrderedBook_permutation sampleEnv rangeStored sampleBook (by decide) (by decide)
    (by decide) (by decide) (by decide) (by decide) (by decide) (by decide) (by decide)
    (by decide)

/-! ## Page sequencing -/

theorem sortPageFiles_eq (env : Env) (ties : SliceOrder) (caseSensitiveSort : Bool)
    (PageFiles : List String) :
    sortPageFiles env ties caseSensitiveSort PageFiles =
      (ties.arrange PageFiles).insertionSort (fun a b =>
        ¬ decide ((pageKey env caseSensitiveSort b).data < (pageKey env caseSensitiveSort a).data)
          = true) := by
  cases caseSensitiveSort <;> rfl

/-- Two names of which the first has the smaller key come out of the page sort
in that order, whatever order they went in and wherever ties go. -/
theorem sortPageFiles_pair (env : Env) (ties : SliceOrder) (caseSensitiveSort : Bool)
    (x y : String) (PageFiles : List String) (hperm : PageFiles.Perm [x, y])
    (hlt : (pageKey env caseSensitiveSort x).data < (pageKey env caseSensitiveSort y).data) :
    sortPageFiles env ties caseSensitiveSort PageFiles = [x, y] := by
  have hxy : x ≠ y := by
    rintro rfl
    exact lt_irrefl _ hlt
  have hnot : ¬ (pageKey env caseSensitiveSort y).data < (pageKey env caseSensitiveSort x).data :=
    not_lt.mpr (le_of_lt hlt)
  have harr : (ties.arrange PageFiles).Perm [x, y] := (ties.perm PageFiles).trans hperm
  have hcases : ties.arrange PageFiles = [x, y] ∨ ties.arrange PageFiles = [y, x] := by
    have hlen := harr.length_eq
    match hl : ties.arrange PageFiles, hlen with
    | [p, q], _ =>
      rw [hl] at harr
      obtain ⟨hp, hq⟩ := List.cons_perm_iff_perm_erase.mp harr
      rcases List.mem_cons.mp hp with rfl | hp
      · have hq2 : [q].Perm [y] := by simpa using hq
        have := List.perm_singleton.mp hq2
        simp_all
      · have hp2 : p = y := by simpa using hp
        subst hp2
        have hq2 : [q].Perm [x] := by
          have he : [x, p].erase p = [x] := by
            simp [List.erase_cons, hxy]
          rw [he] at hq
          exact hq
        have := List.perm_singleton.mp hq2
        simp_all
  rw [sortPageFiles_eq]
  rcases hcases with h | h
  · rw [h]
    simp [List.insertionSort, List.orderedInsert, hnot]
  · rw [h]
    simp [List.insertionSort, List.orderedInsert, hlt]

/-- With a case table that lowers `É` to `é` and leaves `é`, as the Unicode table
does, the case-insensitive sort puts `éa.jpg` before `Éb.jpg`: names outside
ASCII are compared by their lowercased form too. -/
theorem sortPageFiles_latin (env : Env) (ties : SliceOrder)
    (hupper : env.LowerCase 'É' = 'é') (hlower : env.LowerCase 'é' = 'é') :
    sortPageFiles env ties false ["Éb.jpg", "éa.jpg"] = ["éa.jpg", "Éb.jpg"] := by
  have ha : pageKey env false "éa.jpg" = "éa.jpg" := by
    have h : strings.lowerRune env.LowerCase 'é' = 'é' := by
      unfold strings.lowerRune
      rw [if_neg (by decide), hlower]
    show String.mk (List.map (strings.lowerRune env.LowerCase) ['é', 'a', '.', 'j', 'p', 'g'])
      = "éa.jpg"
    simp only [List.map, h]
    rfl
  have hb : pageKey env false "Éb.jpg" = "éb.jpg" := by
    have h : strings.lowerRune env.LowerCase 'É' = 'é' := by
      unfold strings.lowerRune
      rw [if_neg (by decide), hupper]
    show String.mk (List.map (strings.lowerRune env.LowerCase) ['É', 'b', '.', 'j', 'p', 'g'])
      = "éb.jpg"
    simp only [List.map, h]
    rfl
  refine sortPageFiles_pair env ties false "éa.jpg" "Éb.jpg" _ (List.Perm.swap _ _ _) ?_
  rw [ha, hb]
  decide

/-- C7. Whatever the Unicode case table and wherever the unstable sort leaves
ties: in either mode the sorted page files are a permutation of the page files
and non-decreasing under the key of the mode (the name itself when
`caseSensitiveSort` is set, the lowercased name otherwise), compared character
by character; `B.jpg`, `a.jpg` sorts to `a.jpg`, `B.jpg` case-insensitively and
stays as it is case-sensitively; `page10.jpg` goes before `page9.jpg` in both
modes. -/
theorem sortPageFiles_sorted_permutation (env : Env) (ties : SliceOrder)
    (caseSensitiveSort : Bool) (PageFiles : List String) :
    (sortPageFiles env ties caseSensitiveSort PageFiles).Perm PageFiles ∧
      (sortPageFiles env ties caseSensitiveSort PageFiles).Sorted
        (fun a b => (pageKey env caseSensitiveSort a).data
          ≤ (pageKey env caseSensitiveSort b).data) ∧
      pageKey env true = id ∧ pageKey env false = strings.ToLower env.LowerCase ∧
      sortPageFiles env ties false ["B.jpg", "a.jpg"] = ["a.jpg", "B.jpg"] ∧
      sortPageFiles env ties true ["B.jpg", "a.jpg"] = ["B.jpg", "a.jpg"] ∧
      sortPageFiles env ties true ["page9.jpg", "page10.jpg"] = ["page10.jpg", "page9.jpg"] ∧
      sortPageFiles env ties false ["page9.jpg", "page10.jpg"]
        = ["page10.jpg", "page9.jpg"] := by
  have ha : pageKey env false "a.jpg" = "a.jpg" := rfl
  have hb : pageKey env false "B.jpg" = "b.jpg" := rfl
  have h9 : pageKey env false "page9.jpg" = "page9.jpg" := rfl
  have h10 : pageKey env false "page10.jpg" = "page10.jpg" := rfl
  refine ⟨?_, ?_, rfl, rfl, ?_, ?_, ?_, ?_⟩
  · rw [sortPageFiles_eq]
    exact (List.perm_insertionSort _ _).trans (ties.perm PageFiles)
  · rw [sortPageFiles_eq]
    haveI : IsTotal String (fun a b =>
        ¬ decide ((pageKey env caseSensitiveSort b).data < (pageKey env caseSensitiveSort a).data)
          = true) :=
      ⟨fun a b => by
        simp only [decide_eq_true_eq, not_lt]
        exact le_total _ _⟩
    haveI : IsTrans String (fun a b =>
        ¬ decide ((pageKey env caseSensitiveSort b).data < (pageKey env caseSensitiveSort a).data)
          = true) :=
      ⟨fun a b c => by
        simp only [decide_eq_true_eq, not_lt]
        exact le_trans⟩
    refine (List.sorted_insertionSort (fun a b =>
      ¬ decide ((pageKey env caseSensitiveSort b).data < (pageKey env caseSensitiveSort a).data)
        = true) (ties.arrange PageFiles)).imp ?_
    intro a b h
    simpa using h
  · exact sortPageFiles_pair env ties false "a.jpg" "B.jpg" _ (List.Perm.swap _ _ _)
      (by rw [ha, hb]; decide)
  · exact sortPageFiles_pair env ties true "B.jpg" "a.jpg" _ (List.Perm.refl _)
      (show "B.jpg".data < "a.jpg".data by decide)
  · exact sortPageFiles_pair env ties true "page10.jpg" "page9.jpg" _ (List.Perm.swap _ _ _)
      (show "page10.jpg".data < "page9.jpg".data by decide)
  · exact sortPageFiles_pair env ties false "page10.jpg" "page9.jpg" _ (List.Perm.swap _ _ _)
      (by rw [h9, h10]; decide)

/-! ## Container cardinality -/

/-- C8, at the failing input: for a container file without a `rootfiles` element
`populateFromXml` returns no error but panics on the nil `RootFiles` pointer, and
so does `ExtractBookFromArchive`. -/
theorem populateFromXml_no_rootfiles_panics :
    (populateFromXml noRootfilesEnv sampleFreshBook).2 = .panic ∧
      ExtractBookFromArchive noRootfilesEnv sampleArchive = (none, .panic) := by
  decide

/-- With a `rootfiles` element present, any number of `rootfile` declarations
other than one makes `populateFromXml` return the cardinality error and leave
`RootFilename` as it was. -/
theorem populateFromXml_wrong_count (env : Env) (book : Book) (containerXml : String)
    (container : Container) (rootFiles : RootFiles)
    (hread : ReadFileFromArchive env book.Archive "META-INF/container.xml" = .ok containerXml)
    (hxml : env.UnmarshalContainer containerXml = .ok container)
    (hroot : container.RootFiles = some rootFiles) (hcount : rootFiles.RootFile.length ≠ 1) :
    (populateFromXml env book).2 = .err (book.Archive.ArchiveFilename
        ++ " Container.rootfiles had wrong number of <rootfile> elements") ∧
      (populateFromXml env book).1.RootFilename = book.RootFilename := by
  simp [populateFromXml, hread, hxml, hroot, hcount]

/-- With exactly one `rootfile` declaration `populateFromXml` gets past the
cardinality check without a panic and sets `RootFilename` to `TmpDir` joined with
the declaration's `full-path`. -/
theorem populateFromXml_one_rootfile (env : Env) (book : Book) (containerXml : String)
    (container : Container) (rootFile : RootFile)
    (hread : ReadFileFromArchive env book.Archive "META-INF/container.xml" = .ok containerXml)
    (hxml : env.UnmarshalContainer containerXml = .ok container)
    (hroot : container.RootFiles = some { RootFile := [rootFile] }) :
    (populateFromXml env book).1.RootFilename
        = filepath.Join book.Archive.TmpDir rootFile.FullPath ∧
      (populateFromXml env book).2 ≠ .panic := by
  simp only [populateFromXml, hread, hxml, hroot, List.length_singleton, ne_eq,
    not_true_eq_false, if_false, List.head?_cons]
  split
  · simp
  · split <;> simp

/-! ## Extraction rules of the scanner -/

theorem tokenResourceURL_eq_rule (token : Token) :
    tokenResourceURL token = (extractionRule token).getD "" := by
  unfold tokenResourceURL extractionRule
  cases hk : token.Kind <;> simp <;> split_ifs <;> simp_all

theorem extractionRule_ne_empty (token : Token) : extractionRule token ≠ some "" := by
  unfold extractionRule
  split_ifs with h1 h2 h3
  · intro h
    exact h1.2.2 (Option.some.inj h)
  · intro h
    exact h2.2.2 (Option.some.inj h)
  · intro h
    exact h3.2.2.2 (Option.some.inj h)
  · simp

theorem foldl_processToken_offers (baseURL : String) (tokens : List Token)
    (state : Book × GoMap) :
    tokens.foldl (processToken baseURL) state
      = offerAll baseURL (tokens.filterMap extractionRule) state := by
  induction tokens generalizing state with
  | nil => rfl
  | cons t ts ih =>
    rw [List.foldl_cons]
    have hurl := tokenResourceURL_eq_rule t
    cases hrule : extractionRule t with
    | none =>
      rw [hrule] at hurl
      have h1 : processToken baseURL state t = state := by
        simp [processToken, hurl]
      rw [h1, ih, List.filterMap_cons_none hrule]
    | some url =>
      rw [hrule] at hurl
      have hne : url ≠ "" := fun e => extractionRule_ne_empty t (by rw [hrule, e])
      have h1 : processToken baseURL state t = addResourceToBook state.1 url baseURL state.2 := by
        simp [processToken, hurl, hne]
      rw [h1, ih, List.filterMap_cons_some hrule]
      rfl

/-- C9, amended. For a document that is located and read, `processHtml` offers to
`addResourceToBook`, in document order, exactly the non-empty `srcset` of each
`picture` start tag, the non-empty `src` of each self-closing `img` tag, and the
non-empty `href` of each self-closing `link` tag whose `rel` is `stylesheet`,
and nothing for any other token. -/
theorem processHtml_offers (env : Env) (book : Book) (itemIRI : String) (allFilesMap : GoMap)
    (relIRI htmlDoc : String)
    (hrel : filepath.Rel book.Archive.TmpDir itemIRI = .ok relIRI)
    (hread : ReadFileFromArchive env book.Archive relIRI = .ok htmlDoc) :
    ((processHtml env book itemIRI allFilesMap).book,
        (processHtml env book itemIRI allFilesMap).files) =
      offerAll (path.Dir relIRI) ((env.Tokenize htmlDoc).tokens.filterMap extractionRule)
        (book, allFilesMap) := by
  simp only [processHtml, hrel, hread]
  cases (env.Tokenize htmlDoc).err with
  | none => exact foldl_processToken_offers _ _ _
  | some e => exact foldl_processToken_offers _ _ _

/-! ## The comic page list -/

theorem toLower_ne_of_slash (table : Char → Char) (filename name : String)
    (hslash : '/' ∈ filename.data) (hname : '/' ∉ name.data) :
    strings.ToLower table filename ≠ name := by
  intro h
  apply hname
  rw [← h]
  show '/' ∈ filename.data.map (strings.lowerRune table)
  exact List.mem_map.mpr ⟨'/', hslash, rfl⟩

theorem comic_fileStep_of_slash (env : Env) (book : comic.Book) (filename : String)
    (hslash : '/' ∈ filename.data) :
    comic.fileStep env book filename
      = { book with PageFiles := book.PageFiles ++ [filename] } := by
  have h1 := toLower_ne_of_slash env.LowerCase filename comic.metadataFilename hslash
    (by decide)
  have h2 := toLower_ne_of_slash env.LowerCase filename "thumbs.db" hslash (by decide)
  simp [comic.fileStep, comic.filenamesToIgnore, h1, h2]

theorem comic_foldl_fileStep_of_slash (env : Env) (files : List String) (book : comic.Book)
    (hslash : ∀ f ∈ files, '/' ∈ f.data) :
    files.foldl (comic.fileStep env) book
      = { book with PageFiles := book.PageFiles ++ files } := by
  induction files generalizing book with
  | nil => simp
  | cons f fs ih =>
    rw [List.foldl_cons, comic_fileStep_of_slash env book f (hslash f (List.mem_cons_self _ _)),
      ih _ (fun g hg => hslash g (List.mem_cons_of_mem _ hg))]
    simp

/-- Whatever the archive holds, when every file path has a slash in it (as every
path under the temporary directory has) all files become page files and no
metadata file is recorded. -/
theorem comic_extract_of_slash (env : Env) (theArchive : Archive)
    (hslash : ∀ f ∈ theArchive.Files, '/' ∈ f.data) :
    comic.ExtractBookFromArchive env theArchive =
      (some ⟨theArchive, "", none, theArchive.Files⟩, .nil) := by
  simp [comic.ExtractBookFromArchive, comic_foldl_fileStep_of_slash env _ _ hslash,
    comic.findMetadata]

/-! ## The path library at some inputs -/

/-- The path functions at some inputs, as Go computes them. -/
theorem path_library_examples :
    path.Clean "a//b/./c/.." = "a/b" ∧ path.Clean "/../a" = "/a" ∧ path.Clean "" = "." ∧
      path.Clean "../../a/" = "../../a" ∧
      path.Join "/tmp/x" "OEBPS/ch1.xhtml" = "/tmp/x/OEBPS/ch1.xhtml" ∧
      path.Join "OEBPS" "../css/a.css" = "css/a.css" ∧
      path.Dir "OEBPS/content.opf" = "OEBPS" ∧ path.Dir "content.opf" = "." ∧
      path.Dir "/a" = "/" ∧
      filepath.Rel "/tmp/x" "/tmp/x/OEBPS/ch1.xhtml" = .ok "OEBPS/ch1.xhtml" ∧
      filepath.Rel "/tmp/x" "/tmp/y" = .ok "../y" ∧ filepath.Rel "/" "/y" = .ok "y" ∧
      filepath.Rel "/tmp/x" "/tmp/x" = .ok "." ∧
      filepath.Rel "/tmp/x" "y" = .fail "Rel: can't make y relative to /tmp/x" := by
  decide

/-! ## Concrete runs of the resolver -/

/-- C2 fails as stated: both books have a valid spine (every idref is the id of a
manifest item, and the one markup document is read and tokenized), yet
`CreateOrderedBook` returns the count error, once for a spine naming the same
item twice and once for a spine item already placed as a resource of the
chapter. -/
theorem createOrderedBook_total_counterexample :
    (∀ book ∈ [twiceBook, placedEarlierBook], ∀ pkg ∈ book.Package, ∀ spine ∈ pkg.Spine,
      (∀ ref ∈ spine.Itemref, ∃ item ∈ sampleManifest.Item, item.Id = ref.Idref) ∧
      (∀ item ∈ sampleManifest.Item, isMarkup item.MediaType = true →
        htmlResult sampleEnv book.Archive
          (resolveItemIRI book (filepath.Dir pkg.PackageFilename) item) = .nil)) ∧
      (CreateOrderedBook sampleEnv rangeStored twiceBook).2
        = .err "Failed to order -2 files for book.epub" ∧
      (CreateOrderedBook sampleEnv rangeStored placedEarlierBook).2
        = .err "Failed to order -2 files for book.epub" := by
  decide

/-- C2, amended, at the sample book with the image named in the spine before the
chapter that shows it: the chapter offers the image only after it was placed,
and the call succeeds. -/
theorem createOrderedBook_total_witness :
    (CreateOrderedBook sampleEnv rangeStored imageFirstBook).2 = .nil ∧
      (CreateOrderedBook sampleEnv rangeStored imageFirstBook).1.OrderedFiles.length + 3
        = imageFirstBook.Archive.Files.length :=
  (createOrderedBook_total sampleEnv rangeStored imageFirstBook
    { samplePackage with Spine := some { Itemref :=
        [{ Idref := "imgA", Linear := "" }, { Idref := "ch1", Linear := "" }] } }
    sampleManifest
    { Itemref := [{ Idref := "imgA", Linear := "" }, { Idref := "ch1", Linear := "" }] }
    (by decide) (by decide) (by decide) (by decide) (by decide) (by decide) (by decide)
    (by decide) (by decide) rfl rfl rfl (by decide) (by decide)).mpr
    ⟨by decide, by decide, by decide⟩

/-- The sample book with an unknown idref after the chapter: with the manifest
present the call returns an error. -/
theorem createOrderedBook_missing_id_witness :
    (CreateOrderedBook sampleEnv rangeStored missingIdBook).2 ≠ .nil ∧
      ∃ msg, (CreateOrderedBook sampleEnv rangeStored missingIdBook).2 = .err msg :=
  ⟨(createOrderedBook_missing_id sampleEnv rangeStored missingIdBook
      { samplePackage with Spine := some { Itemref :=
          [{ Idref := "ch1", Linear := "" }, { Idref := "nope", Linear := "" }] } }
      { Itemref := [{ Idref := "ch1", Linear := "" }, { Idref := "nope", Linear := "" }] }
      { Idref := "nope", Linear := "" } rfl rfl (by decide)
      (by intro manifest h; cases h; decide)).1,
    (createOrderedBook_missing_id sampleEnv rangeStored missingIdBook
      { samplePackage with Spine := some { Itemref :=
          [{ Idref := "ch1", Linear := "" }, { Idref := "nope", Linear := "" }] } }
      { Itemref := [{ Idref := "ch1", Linear := "" }, { Idref := "nope", Linear := "" }] }
      { Idref := "nope", Linear := "" } rfl rfl (by decide)
      (by intro manifest h; cases h; decide)).2 sampleManifest rfl⟩

/-- C4 fails as stated: the chapter of the sample book shows `a.png` and `b.png`
through two self-closing `img` tags, both files unassigned, and they are placed
before the chapter, not after it; written as start tags they are not
discovered at all and are left to the remainder. -/
theorem discovery_precedence_counterexample :
    (CreateOrderedBook sampleEnv rangeStored sampleBook).1.OrderedFiles =
        ["/t/OEBPS/a.png", "/t/OEBPS/b.png", "/t/OEBPS/ch1.xhtml", "/t/OEBPS/extra.css",
          "/t/OEBPS/notes.txt"] ∧
      ¬ ["/t/OEBPS/ch1.xhtml", "/t/OEBPS/a.png", "/t/OEBPS/b.png"] <:+:
        (CreateOrderedBook sampleEnv rangeStored sampleBook).1.OrderedFiles ∧
      (CreateOrderedBook startTagEnv rangeReversed sampleBook).1.OrderedFiles =
        ["/t/OEBPS/ch1.xhtml", "/t/OEBPS/notes.txt", "/t/OEBPS/extra.css", "/t/OEBPS/b.png",
          "/t/OEBPS/a.png"] := by
  decide

/-- C4, amended, at the chapter of the sample book with a stylesheet link before
its two images: the stylesheet is placed first, then the two images, then the
chapter. -/
theorem spineLoop_discovery_precedence_witness :
    (spineLoop linkedEnv "OEBPS" [{ Idref := "ch1", Linear := "" }] sampleBook
        sampleBook.ItemFilename).book.OrderedFiles =
        ["/t/OEBPS/extra.css", "/t/OEBPS/a.png", "/t/OEBPS/b.png", "/t/OEBPS/ch1.xhtml"] ∧
      ∃ earlier tail, (spineLoop linkedEnv "OEBPS" [{ Idref := "ch1", Linear := "" }] sampleBook
        sampleBook.ItemFilename).book.OrderedFiles =
        [] ++ earlier ++ ["/t/OEBPS/a.png", "/t/OEBPS/b.png", "/t/OEBPS/ch1.xhtml"] ++ tail ∧
      (∀ x ∈ earlier, x ∈ ["/t/OEBPS/extra.css"]) ∧
      "/t/OEBPS/a.png" ∉ (spineLoop linkedEnv "OEBPS" [{ Idref := "ch1", Linear := "" }]
        sampleBook sampleBook.ItemFilename).files ∧
      "/t/OEBPS/b.png" ∉ (spineLoop linkedEnv "OEBPS" [{ Idref := "ch1", Linear := "" }]
        sampleBook sampleBook.ItemFilename).files :=
  ⟨by decide,
    spineLoop_discovery_precedence linkedEnv "OEBPS" { Idref := "ch1", Linear := "" } []
      sampleBook sampleBook.ItemFilename
      { Href := "ch1.xhtml", Id := "ch1", MediaType := "application/xhtml+xml" }
      "OEBPS/ch1.xhtml" "<img src=a.png /><img src=b.png />"
      [sampleLink "extra.css"] [] []
      (sampleImg "a.png") (sampleImg "b.png") (by decide) (by decide) (by decide) (by decide)
      (by decide) (by decide) (by decide) (by decide) (by decide) (by decide) (by decide)
      (by decide) (by decide) (by decide)⟩

/-- C5 at the sample book: `notes.txt` is named by no spine item and no
document. -/
theorem createOrderedBook_unassigned_fallback_witness :
    (CreateOrderedBook sampleEnv rangeStored sampleBook).2 = .nil ∧
      ∃ placed rest, (CreateOrderedBook sampleEnv rangeStored sampleBook).1.OrderedFiles
          = placed ++ rest ∧
        "/t/OEBPS/notes.txt" ∉ placed ∧ rest.count "/t/OEBPS/notes.txt" = 1 ∧
        (CreateOrderedBook sampleEnv rangeStored sampleBook).1.OrderedFiles.count
          "/t/OEBPS/notes.txt" = 1 := by
  obtain ⟨placed, rest, h1, _, _, _, h2, h3, h4⟩ :=
    createOrderedBook_unassigned_fallback sampleEnv rangeStored sampleBook samplePackage
      { Itemref := [{ Idref := "ch1", Linear := "" }] } "/t/OEBPS/notes.txt" rfl rfl rfl
      (by decide) (by decide) (by decide) (by decide)
  exact ⟨by decide, placed, rest, h1, h2, h3, h4⟩

/-- C6 fails as stated: the same book, with the two unassigned files visited in
one order and in the other, gives two different `OrderedFiles`. -/
theorem createOrderedBook_determinism_counterexample :
    (CreateOrderedBook sampleEnv rangeStored sampleBook).1.OrderedFiles =
        ["/t/OEBPS/a.png", "/t/OEBPS/b.png", "/t/OEBPS/ch1.xhtml", "/t/OEBPS/extra.css",
          "/t/OEBPS/notes.txt"] ∧
      (CreateOrderedBook sampleEnv rangeReversed sampleBook).1.OrderedFiles =
        ["/t/OEBPS/a.png", "/t/OEBPS/b.png", "/t/OEBPS/ch1.xhtml", "/t/OEBPS/notes.txt",
          "/t/OEBPS/extra.css"] ∧
      (CreateOrderedBook sampleEnv rangeStored sampleBook).1.OrderedFiles ≠
        (CreateOrderedBook sampleEnv rangeReversed sampleBook).1.OrderedFiles := by
  decide

/-- C9 fails as stated: for the chapter whose two `img` elements are written as
start tags, the claimed rules yield `a.png` and `b.png`, both unassigned files
of the chapter's directory, yet `processHtml` returns no error and places
nothing. -/
theorem processHtml_offers_counterexample :
    (startTagEnv.Tokenize "<img src=a.png /><img src=b.png />").tokens.filterMap claimedRule
        = ["a.png", "b.png"] ∧
      (offerAll "OEBPS" ["a.png", "b.png"] (sampleBook, sampleBook.ItemFilename)).1.OrderedFiles
        = ["/t/OEBPS/a.png", "/t/OEBPS/b.png"] ∧
      processHtml startTagEnv sampleBook "/t/OEBPS/ch1.xhtml" sampleBook.ItemFilename
        = ⟨sampleBook, sampleBook.ItemFilename, .nil⟩ := by
  decide

/-- C9, amended, at the chapter of the sample book. -/
theorem processHtml_offers_witness :
    (sampleEnv.Tokenize "<img src=a.png /><img src=b.png />").tokens.filterMap extractionRule
        = ["a.png", "b.png"] ∧
      ((processHtml sampleEnv sampleBook "/t/OEBPS/ch1.xhtml" sampleBook.ItemFilename).book,
        (processHtml sampleEnv sampleBook "/t/OEBPS/ch1.xhtml" sampleBook.ItemFilename).files) =
      offerAll (path.Dir "OEBPS/ch1.xhtml")
        ((sampleEnv.Tokenize "<img src=a.png /><img src=b.png />").tokens.filterMap
          extractionRule)
        (sampleBook, sampleBook.ItemFilename) :=
  ⟨by decide, processHtml_offers sampleEnv sampleBook "/t/OEBPS/ch1.xhtml"
    sampleBook.ItemFilename "OEBPS/ch1.xhtml" "<img src=a.png /><img src=b.png />"
    (by decide) (by decide)⟩

/-- C10, at the failing input: the files of an extracted archive carry the
temporary directory, so none of them equals `comicinfo.xml` or `thumbs.db` when
lowercased; `ComicInfo.xml` and `Thumbs.db` stay among the page files and no
metadata file is recorded. -/
theorem comic_extract_keeps_metadata_file :
    (comic.ExtractBookFromArchive sampleEnv sampleComicArchive).2 = .nil ∧
      (comic.ExtractBookFromArchive sampleEnv sampleComicArchive).1.map
          (fun book => book.PageFiles)
        = some ["/tmp/bish1/ComicInfo.xml", "/tmp/bish1/Thumbs.db", "/tmp/bish1/page1.jpg"] ∧
      (comic.ExtractBookFromArchive sampleEnv sampleComicArchive).1.map
          (fun book => book.MetadataFilename)
        = some "" := by
  decide

/-! ## Failure: what the book holds and what the error says -/

/-- A loop that returns an error met a missing id with that message, or a
document whose scan ended in that error. -/
theorem runPlans_err_inv (plans : List RefPlan) (s : List String × GoMap) (msg : String)
    (h : (runPlans plans s).2 = .err msg) :
    RefPlan.missing msg ∈ plans ∨ ∃ itemIRI cands, RefPlan.item itemIRI cands (.err msg) ∈ plans := by
  induction plans generalizing s with
  | nil => simp [runPlans] at h
  | cons p ps ih =>
    cases p with
    | crash => simp [runPlans] at h
    | missing m =>
      simp only [runPlans] at h
      cases h
      exact Or.inl (List.mem_cons_self _ _)
    | item itemIRI cands html =>
      cases html with
      | nil =>
        simp only [runPlans] at h
        rcases ih _ h with h1 | ⟨i, c, h1⟩
        · exact Or.inl (List.mem_cons_of_mem _ h1)
        · exact Or.inr ⟨i, c, List.mem_cons_of_mem _ h1⟩
      | err e =>
        simp only [runPlans] at h
        cases h
        exact Or.inr ⟨itemIRI, cands, List.mem_cons_self _ _⟩
      | panic => simp [runPlans] at h

/-- The paths of the items among some plans. -/
theorem mem_planPaths_of_item (plans : List RefPlan) (itemIRI : String) (cands : List String)
    (html : Result) (h : RefPlan.item itemIRI cands html ∈ plans) : itemIRI ∈ planPaths plans := by
  induction plans with
  | nil => cases h
  | cons p ps ih =>
    rcases List.mem_cons.mp h with h1 | h1
    · subst h1
      simp [planPaths]
    · cases p with
      | crash => simpa [planPaths] using ih h1
      | missing m => simpa [planPaths] using ih h1
      | item i c r => simp [planPaths, ih h1]

theorem finishBook_ordered (order : RangeOrder) (book : Book) (s : List String × GoMap)
    (r : Result) :
    ∃ rest, (finishBook order book s r).1.OrderedFiles = s.1 ++ rest := by
  cases r with
  | nil =>
    by_cases hlen : book.Archive.Files.length ≠ (s.1 ++ order.keys s.2).length + 3
    · rw [finishBook, if_pos hlen]
      exact ⟨order.keys s.2, rfl⟩
    · rw [finishBook, if_neg hlen]
      exact ⟨order.keys s.2, rfl⟩
  | err e => exact ⟨[], by simp [finishBook]⟩
  | panic => exact ⟨[], by simp [finishBook]⟩

theorem finishBook_err_inv (order : RangeOrder) (book : Book) (s : List String × GoMap)
    (r : Result) (msg : String) (h : (finishBook order book s r).2 = .err msg) :
    (finishBook order book s r).1.ItemFilename = book.ItemFilename ∧
      (r = .err msg ∨ (r = .nil ∧ ∃ n : Int, msg = "Failed to order " ++ toString n
        ++ " files for " ++ book.Archive.ArchiveFilename)) := by
  cases r with
  | nil =>
    by_cases hlen : book.Archive.Files.length ≠ (s.1 ++ order.keys s.2).length + 3
    · rw [finishBook, if_pos hlen] at h ⊢
      cases h
      exact ⟨rfl, Or.inr ⟨rfl, _, rfl⟩⟩
    · rw [finishBook, if_neg hlen] at h
      cases h
  | err e =>
    cases h
    exact ⟨rfl, Or.inl rfl⟩
  | panic => cases h

/-- C11, amended. Whenever `CreateOrderedBook` returns an error, `ItemFilename`
is exactly as it was before the call, and `OrderedFiles` is what it was before
the call followed by whatever the call had placed when it failed. -/
theorem createOrderedBook_error_keeps_items (env : Env) (order : RangeOrder) (book : Book)
    (msg : String) (h : (CreateOrderedBook env order book).2 = .err msg) :
    (CreateOrderedBook env order book).1.ItemFilename = book.ItemFilename ∧
      ∃ placed, (CreateOrderedBook env order book).1.OrderedFiles
        = book.OrderedFiles ++ placed := by
  cases hpkg : book.Package with
  | none => simp [CreateOrderedBook, hpkg] at h
  | some pkg =>
    cases hspine : pkg.Spine with
    | none => simp [CreateOrderedBook, hpkg, hspine] at h
    | some spine =>
      rw [CreateOrderedBook_eq env order book pkg spine hpkg hspine] at h ⊢
      obtain ⟨out, hout, _⟩ := runPlans_ordered (spinePlans env book pkg spine)
        (book.OrderedFiles, book.ItemFilename.foldl GoMap.set [])
      have hrun : (bookRun env book pkg spine).1.1 = book.OrderedFiles ++ out := hout
      obtain ⟨rest, hrest⟩ := finishBook_ordered order book (bookRun env book pkg spine).1
        (bookRun env book pkg spine).2
      refine ⟨(finishBook_err_inv order book _ _ msg h).1, out ++ rest, ?_⟩
      rw [hrest, hrun, List.append_assoc]

theorem contains_append_left (a b part : String) (h : Contains a part) :
    Contains (a ++ b) part := by
  unfold Contains at h ⊢
  obtain ⟨pre, post, hpp⟩ := h
  refine ⟨pre, post ++ b.data, ?_⟩
  rw [String.data_append, ← hpp]
  simp

theorem contains_append_right (a b part : String) (h : Contains b part) :
    Contains (a ++ b) part := by
  unfold Contains at h ⊢
  obtain ⟨pre, post, hpp⟩ := h
  refine ⟨a.data ++ pre, post, ?_⟩
  rw [String.data_append, ← hpp]
  simp

theorem contains_self (a : String) : Contains a a := List.infix_refl _

/-- A missing-id plan of the spine comes from an itemref whose id the manifest
lacks, and its message is the archive filename, a fixed text, and that id. -/
theorem spinePlans_missing_inv (env : Env) (book : Book) (pkg : Package) (spine : Spine)
    (msg : String) (h : RefPlan.missing msg ∈ spinePlans env book pkg spine) :
    ∃ ref ∈ spine.Itemref, getResourceById book ref.Idref = some none ∧
      msg = book.Archive.ArchiveFilename ++ " Container is missing an item with id "
        ++ ref.Idref := by
  obtain ⟨ref, href, hplan⟩ := List.mem_map.mp h
  refine ⟨ref, href, ?_⟩
  unfold planRef at hplan
  cases hget : getResourceById book ref.Idref with
  | none => simp [hget] at hplan
  | some found =>
    cases found with
    | none =>
      simp only [hget] at hplan
      injection hplan with hmsg
      exact ⟨rfl, hmsg.symm⟩
    | some item =>
      simp only [hget] at hplan
      split at hplan <;> cases hplan

/-- An item plan of the spine whose scan ended in an error is a spine item whose
document `processHtml` fails on with that error. -/
theorem spinePlans_item_err_inv (env : Env) (book : Book) (pkg : Package) (spine : Spine)
    (itemIRI : String) (cands : List String) (msg : String)
    (h : RefPlan.item itemIRI cands (.err msg) ∈ spinePlans env book pkg spine) :
    itemIRI ∈ spinePaths env book pkg spine ∧
      htmlResult env book.Archive itemIRI = .err msg := by
  refine ⟨mem_planPaths_of_item _ _ _ _ h, ?_⟩
  obtain ⟨ref, _, hplan⟩ := List.mem_map.mp h
  unfold planRef at hplan
  cases hget : getResourceById book ref.Idref with
  | none => simp [hget] at hplan
  | some found =>
    cases found with
    | none => simp [hget] at hplan
    | some item =>
      simp only [hget] at hplan
      split at hplan
      · injection hplan with h1 _ h3
        rw [← h1]
        exact h3
      · injection hplan with _ _ h3
        cases h3

theorem finishBook_err_msg (order : RangeOrder) (book : Book) (s : List String × GoMap)
    (r : Result) (msg : String) (h : (finishBook order book s r).2 = .err msg) :
    r = .err msg ∨
      (book.Archive.Files.length ≠ (finishBook order book s r).1.OrderedFiles.length + 3 ∧
        msg = "Failed to order "
          ++ toString (((finishBook order book s r).1.OrderedFiles.length : Int)
            - (book.Archive.Files.length : Int))
          ++ " files for " ++ book.Archive.ArchiveFilename) := by
  cases r with
  | nil =>
    by_cases hlen : book.Archive.Files.length ≠ (s.1 ++ order.keys s.2).length + 3
    · rw [finishBook, if_pos hlen] at h ⊢
      cases h
      exact Or.inr ⟨hlen, rfl⟩
    · rw [finishBook, if_neg hlen] at h
      cases h
  | err e =>
    cases h
    exact Or.inl rfl
  | panic => cases h

/-- The one error text of `filepath.Rel`. -/
theorem rel_fail_msg (basepath targpath msg : String)
    (h : filepath.Rel basepath targpath = .fail msg) :
    msg = "Rel: can't make " ++ targpath ++ " relative to " ++ basepath := by
  unfold filepath.Rel at h
  simp only at h
  repeat' split at h
  all_goals first
    | (injection h with h1; exact h1.symm)
    | cases h

/-- The three errors of `processHtml`: of `filepath.Rel`, of reading the
document, of the tokenizer. -/
theorem htmlResult_err_inv (env : Env) (archive : Archive) (itemIRI msg : String)
    (h : htmlResult env archive itemIRI = .err msg) :
    (∃ relIRI readErr, filepath.Rel archive.TmpDir itemIRI = .ok relIRI ∧
        env.ReadFile (filepath.Join archive.TmpDir relIRI) = .fail readErr ∧
        msg = "Could not read file from archive " ++ archive.ArchiveFilename
          ++ ": " ++ readErr) ∨
      filepath.Rel archive.TmpDir itemIRI = .fail msg ∨
      (∃ relIRI doc tokErr, filepath.Rel archive.TmpDir itemIRI = .ok relIRI ∧
        ReadFileFromArchive env archive relIRI = .ok doc ∧
        (env.Tokenize doc).err = some tokErr ∧ msg = "Error tokenizing HTML: " ++ tokErr) := by
  unfold htmlResult at h
  cases hrel : filepath.Rel archive.TmpDir itemIRI with
  | fail relErr =>
    simp only [hrel] at h
    cases h
    exact Or.inr (Or.inl rfl)
  | ok relIRI =>
    simp only [hrel] at h
    cases hread : ReadFileFromArchive env archive relIRI with
    | fail readErr =>
      simp only [hread] at h
      cases h
      refine Or.inl ⟨relIRI, ?_⟩
      unfold ReadFileFromArchive at hread
      cases hfile : env.ReadFile (filepath.Join archive.TmpDir relIRI) with
      | fail e =>
        simp only [hfile] at hread
        cases hread
        exact ⟨e, rfl, rfl, rfl⟩
      | ok c =>
        simp only [hfile] at hread
        cases hread
    | ok doc =>
      simp only [hread] at h
      cases herr : (env.Tokenize doc).err with
      | none => simp [herr] at h
      | some tokErr =>
        simp only [herr] at h
        cases h
        exact Or.inr (Or.inr ⟨relIRI, doc, tokErr, rfl, hread, herr, rfl⟩)

/-- An item plan of the spine whose scan ended in an error comes from an itemref
whose manifest item is of a markup media type and whose document `processHtml`
fails on with that error. -/
theorem spinePlans_item_err_ref (env : Env) (book : Book) (pkg : Package) (spine : Spine)
    (itemIRI : String) (cands : List String) (msg : String)
    (h : RefPlan.item itemIRI cands (.err msg) ∈ spinePlans env book pkg spine) :
    ∃ ref ∈ spine.Itemref, ∃ item, getResourceById book ref.Idref = some (some item) ∧
      (item.MediaType = "application/xhtml+xml" ∨ item.MediaType = "text/html") ∧
      htmlResult env book.Archive (resolveItemIRI book (filepath.Dir pkg.PackageFilename) item)
        = .err msg := by
  obtain ⟨ref, href, hplan⟩ := List.mem_map.mp h
  refine ⟨ref, href, ?_⟩
  unfold planRef at hplan
  cases hget : getResourceById book ref.Idref with
  | none => simp [hget] at hplan
  | some found =>
    cases found with
    | none => simp [hget] at hplan
    | some item =>
      simp only [hget] at hplan
      split at hplan
      · rename_i hm
        injection hplan with _ _ h3
        exact ⟨item, rfl, by simpa [isMarkup] using hm, h3⟩
      · injection hplan with _ _ h3
        cases h3

/-- C12, amended. Every error `CreateOrderedBook` returns is one of five, and its
message is exactly as follows. The missing-id error: the archive filename, a
fixed text and the missing spine id, so the message contains both. The count
error: a fixed text around the difference of the two lengths and the archive
filename, so the message contains the archive filename and is built from
nothing else of the book. The read error of the document of a markup spine
item: a fixed text, the archive filename and the error of reading the file, so
the message contains the archive filename, and the path of the file whenever
the read error names it. The error of `filepath.Rel` for such a document: a
fixed text around the path of the item and the temporary directory, so the
message contains that path. The tokenizer error for such a document: a fixed
text and the error of the tokenizer, nothing of the book being added. -/
theorem createOrderedBook_error_identified (env : Env) (order : RangeOrder) (book : Book)
    (msg : String) (h : (CreateOrderedBook env order book).2 = .err msg) :
    ∃ pkg spine, book.Package = some pkg ∧ pkg.Spine = some spine ∧
      ((∃ ref ∈ spine.Itemref, getResourceById book ref.Idref = some none ∧
          msg = book.Archive.ArchiveFilename ++ " Container is missing an item with id "
            ++ ref.Idref ∧
          Contains msg book.Archive.ArchiveFilename ∧ Contains msg ref.Idref) ∨
        (book.Archive.Files.length
            ≠ (CreateOrderedBook env order book).1.OrderedFiles.length + 3 ∧
          msg = "Failed to order "
            ++ toString (((CreateOrderedBook env order book).1.OrderedFiles.length : Int)
              - (book.Archive.Files.length : Int))
            ++ " files for " ++ book.Archive.ArchiveFilename ∧
          Contains msg book.Archive.ArchiveFilename) ∨
        (∃ ref ∈ spine.Itemref, ∃ item, getResourceById book ref.Idref = some (some item) ∧
          (item.MediaType = "application/xhtml+xml" ∨ item.MediaType = "text/html") ∧
          ((∃ relIRI readErr,
              filepath.Rel book.Archive.TmpDir
                (resolveItemIRI book (filepath.Dir pkg.PackageFilename) item) = .ok relIRI ∧
              env.ReadFile (filepath.Join book.Archive.TmpDir relIRI) = .fail readErr ∧
              msg = "Could not read file from archive " ++ book.Archive.ArchiveFilename
                ++ ": " ++ readErr ∧
              Contains msg book.Archive.ArchiveFilename ∧
              (Contains readErr (filepath.Join book.Archive.TmpDir relIRI) →
                Contains msg (filepath.Join book.Archive.TmpDir relIRI))) ∨
            (filepath.Rel book.Archive.TmpDir
                (resolveItemIRI book (filepath.Dir pkg.PackageFilename) item) = .fail msg ∧
              msg = "Rel: can't make "
                ++ resolveItemIRI book (filepath.Dir pkg.PackageFilename) item
                ++ " relative to " ++ book.Archive.TmpDir ∧
              Contains msg (resolveItemIRI book (filepath.Dir pkg.PackageFilename) item)) ∨
            (∃ relIRI doc tokErr,
              filepath.Rel book.Archive.TmpDir
                (resolveItemIRI book (filepath.Dir pkg.PackageFilename) item) = .ok relIRI ∧
              ReadFileFromArchive env book.Archive relIRI = .ok doc ∧
              (env.Tokenize doc).err = some tokErr ∧
              msg = "Error tokenizing HTML: " ++ tokErr)))) := by
  cases hpkg : book.Package with
  | none => simp [CreateOrderedBook, hpkg] at h
  | some pkg =>
    cases hspine : pkg.Spine with
    | none => simp [CreateOrderedBook, hpkg, hspine] at h
    | some spine =>
      refine ⟨pkg, spine, rfl, hspine, ?_⟩
      rw [CreateOrderedBook_eq env order book pkg spine hpkg hspine] at h ⊢
      rcases finishBook_err_msg order book _ _ msg h with hrun | ⟨hlen, hn⟩
      · have hrun2 : (runPlans (spinePlans env book pkg spine)
            (book.OrderedFiles, book.ItemFilename.foldl GoMap.set [])).2 = .err msg := hrun
        rcases runPlans_err_inv _ _ msg hrun2 with hmiss | ⟨itemIRI, cands, hitem⟩
        · obtain ⟨ref, href, hget, hmsg⟩ := spinePlans_missing_inv env book pkg spine msg hmiss
          refine Or.inl ⟨ref, href, hget, hmsg, ?_, ?_⟩
          · rw [hmsg]
            exact contains_append_left _ _ _ (contains_append_left _ _ _ (contains_self _))
          · rw [hmsg]
            exact contains_append_right _ _ _ (contains_self _)
        · obtain ⟨ref, href, item, hget, hmark, hres⟩ :=
            spinePlans_item_err_ref env book pkg spine _ _ msg hitem
          refine Or.inr (Or.inr ⟨ref, href, item, hget, hmark, ?_⟩)
          rcases htmlResult_err_inv env book.Archive _ msg hres with
            ⟨relIRI, readErr, hrel, hread, hmsg⟩ | hrel | ⟨relIRI, doc, tokErr, h1, h2, h3, h4⟩
          · refine Or.inl ⟨relIRI, readErr, hrel, hread, hmsg, ?_, ?_⟩
            · rw [hmsg]
              exact contains_append_left _ _ _ (contains_append_left _ _ _
                (contains_append_right _ _ _ (contains_self _)))
            · intro hc
              rw [hmsg]
              exact contains_append_right _ _ _ hc
          · have hmsg := rel_fail_msg _ _ _ hrel
            refine Or.inr (Or.inl ⟨hrel, hmsg, ?_⟩)
            rw [hmsg]
            exact contains_append_left _ _ _ (contains_append_left _ _ _
              (contains_append_right _ _ _ (contains_self _)))
          · exact Or.inr (Or.inr ⟨relIRI, doc, tokErr, h1, h2, h3, h4⟩)
      · refine Or.inr (Or.inl ⟨hlen, hn, ?_⟩)
        rw [hn]
        exact contains_append_right _ _ _ (contains_self _)

/-! ## Archive type and extraction tool -/

theorem extScan_dot (rest seen : List Char) :
    filepath.extScan rest seen = [] ∨ ∃ t, filepath.extScan rest seen = '.' :: t := by
  induction rest generalizing seen with
  | nil => exact Or.inl rfl
  | cons c cs ih =>
    unfold filepath.extScan
    by_cases h1 : c = '/'
    · simp [h1]
    · by_cases h2 : c = '.'
      · simp [h2]
      · simp only [h1, h2, if_false]
        exact ih _

theorem sum_utf8Size_eq_one (l : List Char) (h : (l.map Char.utf8Size).sum = 1) :
    ∃ x : Char, x.utf8Size = 1 ∧ l = [x] := by
  cases l with
  | nil => simp at h
  | cons x t =>
    have hx := Char.utf8Size_pos x
    cases t with
    | nil => exact ⟨x, by simpa using h, rfl⟩
    | cons y t2 =>
      have hy := Char.utf8Size_pos y
      simp only [List.map_cons, List.sum_cons] at h
      omega

/-- The test `len(ext) == 4 && ext[1] == 'c' && ext[2] == 'b'` on an extension
holds exactly of the comic extensions. -/
theorem comicExt_iff (name : String) :
    (len (filepath.Ext name) = 4 ∧ (filepath.Ext name).data.get? 1 = some 'c'
        ∧ (filepath.Ext name).data.get? 2 = some 'b') ↔ IsComicExt (filepath.Ext name) := by
  constructor
  · rintro ⟨hlen, h1, h2⟩
    rcases extScan_dot name.data.reverse [] with h | ⟨t, h⟩
    · have hd : (filepath.Ext name).data = [] := h
      rw [hd] at h1
      simp at h1
    · have hd : (filepath.Ext name).data = '.' :: t := h
      rw [hd] at h1 h2
      cases t with
      | nil => simp at h1
      | cons c1 t1 =>
        cases t1 with
        | nil => simp at h2
        | cons c2 t2 =>
          have e1 : c1 = 'c' := by simpa using h1
          have e2 : c2 = 'b' := by simpa using h2
          subst e1 e2
          have hsum : (t2.map Char.utf8Size).sum = 1 := by
            have h3 : len (filepath.Ext name)
                = Char.utf8Size '.' + (Char.utf8Size 'c' + (Char.utf8Size 'b'
                  + (t2.map Char.utf8Size).sum)) := by
              unfold len
              rw [hd]
              simp
            have d1 : Char.utf8Size '.' = 1 := by decide
            have d2 : Char.utf8Size 'c' = 1 := by decide
            have d3 : Char.utf8Size 'b' = 1 := by decide
            omega
          obtain ⟨x, hx, rfl⟩ := sum_utf8Size_eq_one t2 hsum
          refine ⟨x, hx, ?_⟩
          show filepath.Ext name = String.mk ['.', 'c', 'b', x]
          rw [← hd]
  · rintro ⟨x, hx, hext⟩
    have d1 : Char.utf8Size '.' = 1 := by decide
    have d2 : Char.utf8Size 'c' = 1 := by decide
    have d3 : Char.utf8Size 'b' = 1 := by decide
    rw [hext]
    refine ⟨?_, by simp, by simp⟩
    simp [len, d1, d2, d3, hx]

/-- C13, amended. `getArchiveType` answers `EPub` whenever the extracted files
hold `META-INF/container.xml`, whatever the archive is called; without that
file it reads the type off the extension of the archive filename, `ComicBook`
for a comic extension (`.cb` and one more byte) and `Unknown` for anything
else. So two archives with the same temporary directory and the same extracted
files get the same type when the files hold the container file or when their
filenames have the same extension. -/
theorem getArchiveType_same_files (a1 a2 : Archive) :
    (HasFile a1 "META-INF/container.xml" = true → getArchiveType a1 = .EPub) ∧
      (HasFile a1 "META-INF/container.xml" = false →
        IsComicExt (filepath.Ext a1.ArchiveFilename) → getArchiveType a1 = .ComicBook) ∧
      (HasFile a1 "META-INF/container.xml" = false →
        ¬ IsComicExt (filepath.Ext a1.ArchiveFilename) → getArchiveType a1 = .Unknown) ∧
      (a1.TmpDir = a2.TmpDir → a1.Files = a2.Files →
        (HasFile a1 "META-INF/container.xml" = true ∨
          filepath.Ext a1.ArchiveFilename = filepath.Ext a2.ArchiveFilename) →
        getArchiveType a1 = getArchiveType a2) := by
  refine ⟨?_, ?_, ?_, ?_⟩
  · intro hc
    simp [getArchiveType, hc]
  · intro hc hext
    have := (comicExt_iff a1.ArchiveFilename).mpr hext
    simp only [getArchiveType, hc, Bool.false_eq_true, if_false, if_pos this]
  · intro hc hext
    have : ¬ (len (filepath.Ext a1.ArchiveFilename) = 4
        ∧ (filepath.Ext a1.ArchiveFilename).data.get? 1 = some 'c'
        ∧ (filepath.Ext a1.ArchiveFilename).data.get? 2 = some 'b') :=
      fun h => hext ((comicExt_iff a1.ArchiveFilename).mp h)
    simp only [getArchiveType, hc, Bool.false_eq_true, if_false, if_neg this]
  · intro htmp hfiles h
    have hhas : HasFile a2 "META-INF/container.xml" = HasFile a1 "META-INF/container.xml" := by
      simp [HasFile, htmp, hfiles]
    by_cases hc : HasFile a1 "META-INF/container.xml" = true
    · simp [getArchiveType, hhas, hc]
    · rcases h with h | h
      · exact absurd h hc
      · simp [getArchiveType, hhas, hc, h]

/-- The two books have the same lookups when they differ only in the `Linear`
values of their itemrefs. -/
theorem map_planRef_congr (env : Env) (book1 book2 : Book) (baseIRI : String)
    (harch : book2.Archive = book1.Archive)
    (hget : ∀ id, getResourceById book2 id = getResourceById book1 id)
    (refs1 refs2 : List Itemref)
    (hrefs : refs2.map (fun ref => ref.Idref) = refs1.map (fun ref => ref.Idref)) :
    refs2.map (planRef env book2 baseIRI) = refs1.map (planRef env book1 baseIRI) := by
  induction refs2 generalizing refs1 with
  | nil =>
    cases refs1 with
    | nil => rfl
    | cons r rs => simp at hrefs
  | cons r2 rs2 ih =>
    cases refs1 with
    | nil => simp at hrefs
    | cons r1 rs1 =>
      simp only [List.map_cons, List.cons.injEq] at hrefs ⊢
      refine ⟨?_, ih rs1 hrefs.2⟩
      simp only [planRef, resolveItemIRI, hget, harch, hrefs.1]

/-- Two books with the same archive finish a loop state alike: the same result,
and ordered files that share the state's ordered part and continue with
permutations of one another, equal when the range order is the same. -/
theorem finishBook_congr (order1 order2 : RangeOrder) (book1 book2 : Book)
    (harch : book2.Archive = book1.Archive) (s : List String × GoMap) (r : Result) :
    (finishBook order1 book1 s r).2 = (finishBook order2 book2 s r).2 ∧
      (∃ rest1 rest2, (finishBook order1 book1 s r).1.OrderedFiles = s.1 ++ rest1 ∧
        (finishBook order2 book2 s r).1.OrderedFiles = s.1 ++ rest2 ∧ rest1.Perm rest2) ∧
      (finishBook order1 book1 s r).1.OrderedFiles
        = (finishBook order1 book2 s r).1.OrderedFiles := by
  have h12 : (order1.keys s.2).Perm (order2.keys s.2) :=
    (order1.perm s.2).trans (order2.perm s.2).symm
  have hlen : (s.1 ++ order1.keys s.2).length = (s.1 ++ order2.keys s.2).length := by
    simp [h12.length_eq]
  cases r with
  | nil =>
    simp only [finishBook, hlen, harch]
    by_cases hc : book1.Archive.Files.length ≠ (s.1 ++ order2.keys s.2).length + 3
    · simp only [if_pos hc]
      exact ⟨trivial, ⟨_, _, rfl, rfl, h12⟩, rfl⟩
    · simp only [if_neg hc]
      exact ⟨trivial, ⟨_, _, rfl, rfl, h12⟩, rfl⟩
  | err e => exact ⟨rfl, ⟨[], [], by simp [finishBook], by simp [finishBook], List.Perm.refl _⟩, rfl⟩
  | panic => exact ⟨rfl, ⟨[], [], by simp [finishBook], by simp [finishBook], List.Perm.refl _⟩, rfl⟩

/-- C14. Two books that differ only in the `Linear` values of their spine
itemrefs get the same result from `CreateOrderedBook` (the same error, or both
none) and the same `OrderedFiles` up to the order of the unassigned remainder:
the part placed by the spine loop is shared, what follows is a permutation, and
with the same range order the lists are equal. -/
theorem createOrderedBook_linear_ignored (env : Env) (order1 order2 : RangeOrder)
    (book1 book2 : Book) (pkg1 : Package) (spine1 : Spine) (refs2 : List Itemref)
    (hpkg : book1.Package = some pkg1) (hspine : pkg1.Spine = some spine1)
    (hbook : book2 = { book1 with
      Package := some { pkg1 with Spine := some { Itemref := refs2 } } })
    (hrefs : refs2.map (fun ref => ref.Idref) = spine1.Itemref.map (fun ref => ref.Idref)) :
    (CreateOrderedBook env order1 book1).2 = (CreateOrderedBook env order2 book2).2 ∧
      (∃ placed rest1 rest2,
        (CreateOrderedBook env order1 book1).1.OrderedFiles = placed ++ rest1 ∧
        (CreateOrderedBook env order2 book2).1.OrderedFiles = placed ++ rest2 ∧
        rest1.Perm rest2) ∧
      (CreateOrderedBook env order1 book1).1.OrderedFiles
        = (CreateOrderedBook env order1 book2).1.OrderedFiles := by
  have hpkg2 : book2.Package = some { pkg1 with Spine := some { Itemref := refs2 } } := by
    rw [hbook]
  have harch : book2.Archive = book1.Archive := by rw [hbook]
  have hget : ∀ id, getResourceById book2 id = getResourceById book1 id := by
    intro id
    simp [getResourceById, hpkg2, hpkg]
  have hplans := map_planRef_congr env book1 book2 (filepath.Dir pkg1.PackageFilename)
    harch hget spine1.Itemref refs2 hrefs
  have hrun : bookRun env book2 { pkg1 with Spine := some { Itemref := refs2 } }
      { Itemref := refs2 } = bookRun env book1 pkg1 spine1 := by
    unfold bookRun
    rw [hplans, hbook]
  rw [CreateOrderedBook_eq env order1 book1 pkg1 spine1 hpkg hspine,
    CreateOrderedBook_eq env order2 book2 _ _ hpkg2 rfl,
    CreateOrderedBook_eq env order1 book2 _ _ hpkg2 rfl, hrun]
  obtain ⟨h1, ⟨rest1, rest2, h2, h3, h4⟩, h5⟩ := finishBook_congr order1 order2 book1 book2 harch
    (bookRun env book1 pkg1 spine1).1 (bookRun env book1 pkg1 spine1).2
  exact ⟨h1, ⟨_, rest1, rest2, h2, h3, h4⟩, h5⟩

/-- The byte sniffing selects `unrar x` for `Rar!`, `unzip` for a header that
starts with `PK`, and no command for any other header. -/
theorem sniffCommand_cases (header : Header) (path : String) :
    (header = ⟨0x52, 0x61, 0x72, 0x21⟩ →
      sniffCommand header path = some (exec.Command "unrar" ["x", path])) ∧
    (header.b0 = 0x50 ∧ header.b1 = 0x4B →
      sniffCommand header path = some (exec.Command "unzip" [path])) ∧
    (header ≠ ⟨0x52, 0x61, 0x72, 0x21⟩ → ¬ (header.b0 = 0x50 ∧ header.b1 = 0x4B) →
      sniffCommand header path = none) := by
  refine ⟨?_, ?_, ?_⟩
  · rintro rfl
    simp [sniffCommand]
  · rintro ⟨h0, h1⟩
    simp [sniffCommand, h0, h1]
  · intro hrar hpk
    have hrar2 : ¬ (header.b0 = 0x52 ∧ header.b1 = 0x61 ∧ header.b2 = 0x72
        ∧ header.b3 = 0x21) := by
      rintro ⟨h0, h1, h2, h3⟩
      apply hrar
      cases header
      simp_all
    simp only [sniffCommand, if_neg hrar2, if_neg hpk]

/-- For every header that is neither `Rar!` nor starts with `PK`, once the
temporary directory is made and the header is read, `ExtractArchive` returns no
error: it goes on to set `cmd.Dir` on the nil command and panics. -/
theorem extractArchive_no_command (env : ExtractEnv) (path tmpdir : String) (header : Header)
    (htmp : env.TempDir = .ok tmpdir) (hopen : env.Open path = .ok ())
    (hread : env.ReadFull path = .ok header)
    (hrar : header ≠ ⟨0x52, 0x61, 0x72, 0x21⟩)
    (hpk : ¬ (header.b0 = 0x50 ∧ header.b1 = 0x4B)) :
    ExtractArchive env path = (none, .panic) := by
  simp [ExtractArchive, htmp, hopen, hread, (sniffCommand_cases header path).2.2 hrar hpk]

/-! ## Concrete runs: failures, types, tools -/

/-- C11 fails as stated: at the sample book with an unknown idref after the
chapter the call returns the missing-id error, and `OrderedFiles`, empty before
the call, holds the chapter and its two images afterwards. -/
theorem createOrderedBook_atomicity_counterexample :
    (CreateOrderedBook sampleEnv rangeStored missingIdBook).2
        = .err "book.epub Container is missing an item with id nope" ∧
      missingIdBook.OrderedFiles = [] ∧
      (CreateOrderedBook sampleEnv rangeStored missingIdBook).1.OrderedFiles
        = ["/t/OEBPS/a.png", "/t/OEBPS/b.png", "/t/OEBPS/ch1.xhtml"] := by
  decide

/-- C11, amended, at the same book. -/
theorem createOrderedBook_error_keeps_items_witness :
    (CreateOrderedBook sampleEnv rangeStored missingIdBook).2
        = .err "book.epub Container is missing an item with id nope" ∧
      (CreateOrderedBook sampleEnv rangeStored missingIdBook).1.ItemFilename
        = missingIdBook.ItemFilename ∧
      ∃ placed, (CreateOrderedBook sampleEnv rangeStored missingIdBook).1.OrderedFiles
        = missingIdBook.OrderedFiles ++ placed :=
  ⟨by decide, createOrderedBook_error_keeps_items sampleEnv rangeStored missingIdBook
    "book.epub Container is missing an item with id nope" (by decide)⟩

/-- C12 fails as stated: the count error for the spine that names the chapter
twice contains the archive filename, but not the id of the chapter named twice
and no file of the archive. -/
theorem createOrderedBook_error_identified_counterexample :
    (CreateOrderedBook sampleEnv rangeStored twiceBook).2
        = .err "Failed to order -2 files for book.epub" ∧
      Contains "Failed to order -2 files for book.epub" twiceBook.Archive.ArchiveFilename ∧
      ¬ Contains "Failed to order -2 files for book.epub" "ch1" ∧
      (∀ file ∈ twiceBook.Archive.Files,
        ¬ Contains "Failed to order -2 files for book.epub" file) := by
  decide

/-- C12, amended, at the sample book with a chapter the archive does not hold:
the message contains the archive filename and the path of the missing file. -/
theorem createOrderedBook_error_identified_witness :
    (CreateOrderedBook sampleEnv rangeStored unreadableBook).2
        = .err unreadableMessage ∧
      Contains unreadableMessage "book.epub" ∧
      Contains unreadableMessage "/t/OEBPS/ch2.xhtml" ∧
      ∃ pkg spine, unreadableBook.Package = some pkg ∧ pkg.Spine = some spine ∧
        ((∃ ref ∈ spine.Itemref, getResourceById unreadableBook ref.Idref = some none ∧
            unreadableMessage = unreadableBook.Archive.ArchiveFilename ++ " Container is missing an item with id "
              ++ ref.Idref ∧
            Contains unreadableMessage unreadableBook.Archive.ArchiveFilename ∧ Contains unreadableMessage ref.Idref) ∨
          (unreadableBook.Archive.Files.length
              ≠ (CreateOrderedBook sampleEnv rangeStored unreadableBook).1.OrderedFiles.length + 3 ∧
            unreadableMessage = "Failed to order "
              ++ toString (((CreateOrderedBook sampleEnv rangeStored unreadableBook).1.OrderedFiles.length : Int)
                - (unreadableBook.Archive.Files.length : Int))
              ++ " files for " ++ unreadableBook.Archive.ArchiveFilename ∧
            Contains unreadableMessage unreadableBook.Archive.ArchiveFilename) ∨
          (∃ ref ∈ spine.Itemref, ∃ item, getResourceById unreadableBook ref.Idref = some (some item) ∧
            (item.MediaType = "application/xhtml+xml" ∨ item.MediaType = "text/html") ∧
            ((∃ relIRI readErr,
                filepath.Rel unreadableBook.Archive.TmpDir
                  (resolveItemIRI unreadableBook (filepath.Dir pkg.PackageFilename) item) = .ok relIRI ∧
                sampleEnv.ReadFile (filepath.Join unreadableBook.Archive.TmpDir relIRI) = .fail readErr ∧
                unreadableMessage = "Could not read file from archive " ++ unreadableBook.Archive.ArchiveFilename
                  ++ ": " ++ readErr ∧
                Contains unreadableMessage unreadableBook.Archive.ArchiveFilename ∧
                (Contains readErr (filepath.Join unreadableBook.Archive.TmpDir relIRI) →
                  Contains unreadableMessage (filepath.Join unreadableBook.Archive.TmpDir relIRI))) ∨
              (filepath.Rel unreadableBook.Archive.TmpDir
                  (resolveItemIRI unreadableBook (filepath.Dir pkg.PackageFilename) item) = .fail unreadableMessage ∧
                unreadableMessage = "Rel: can't make "
                  ++ resolveItemIRI unreadableBook (filepath.Dir pkg.PackageFilename) item
                  ++ " relative to " ++ unreadableBook.Archive.TmpDir ∧
                Contains unreadableMessage (resolveItemIRI unreadableBook (filepath.Dir pkg.PackageFilename) item)) ∨
              (∃ relIRI doc tokErr,
                filepath.Rel unreadableBook.Archive.TmpDir
                  (resolveItemIRI unreadableBook (filepath.Dir pkg.PackageFilename) item) = .ok relIRI ∧
                ReadFileFromArchive sampleEnv unreadableBook.Archive relIRI = .ok doc ∧
                (sampleEnv.Tokenize doc).err = some tokErr ∧
                unreadableMessage = "Error tokenizing HTML: " ++ tokErr)))) :=
  ⟨by decide, by decide, by decide,
    createOrderedBook_error_identified sampleEnv rangeStored unreadableBook
      unreadableMessage (by decide)⟩

/-- C13 fails as stated: the same extracted files under the names `comic.cbz`
and `comic.zip` are a comic book and of unknown type. -/
theorem getArchiveType_counterexample :
    comicNamedCbz.Files = comicNamedZip.Files ∧ comicNamedCbz.TmpDir = comicNamedZip.TmpDir ∧
      comicNamedCbz.ArchiveFilename = "comic.cbz" ∧ comicNamedZip.ArchiveFilename = "comic.zip" ∧
      getArchiveType comicNamedCbz = .ComicBook ∧ getArchiveType comicNamedZip = .Unknown := by
  decide

/-- C13, amended, at the sample EPUB archive under another name, and at the
comic archive under its two names. -/
theorem getArchiveType_same_files_witness :
    getArchiveType sampleArchive = .EPub ∧
      getArchiveType sampleArchive
        = getArchiveType { sampleArchive with ArchiveFilename := "book.cbz" } ∧
      getArchiveType comicNamedCbz = .ComicBook ∧ getArchiveType comicNamedZip = .Unknown :=
  ⟨(getArchiveType_same_files sampleArchive sampleArchive).1 (by decide),
    (getArchiveType_same_files sampleArchive
      { sampleArchive with ArchiveFilename := "book.cbz" }).2.2.2 rfl rfl (Or.inl (by decide)),
    (getArchiveType_same_files comicNamedCbz comicNamedCbz).2.1 (by decide)
      ⟨'z', by decide, by decide⟩,
    (getArchiveType_same_files comicNamedZip comicNamedZip).2.2.1 (by decide) (by
      rintro ⟨x, _, hx⟩
      have h : filepath.Ext comicNamedZip.ArchiveFilename = ".zip" := by decide
      rw [h] at hx
      have := congrArg String.data hx
      simp at this)⟩

/-- C14 at the sample book and the sample book with its itemref marked
non-linear. -/
theorem createOrderedBook_linear_ignored_witness :
    (CreateOrderedBook sampleEnv rangeStored sampleBook).2
        = (CreateOrderedBook sampleEnv rangeReversed nonLinearBook).2 ∧
      (∃ placed rest1 rest2,
        (CreateOrderedBook sampleEnv rangeStored sampleBook).1.OrderedFiles = placed ++ rest1 ∧
        (CreateOrderedBook sampleEnv rangeReversed nonLinearBook).1.OrderedFiles
          = placed ++ rest2 ∧
        rest1.Perm rest2) ∧
      (CreateOrderedBook sampleEnv rangeStored sampleBook).1.OrderedFiles
        = (CreateOrderedBook sampleEnv rangeStored nonLinearBook).1.OrderedFiles :=
  createOrderedBook_linear_ignored sampleEnv rangeStored rangeReversed sampleBook nonLinearBook
    samplePackage { Itemref := [{ Idref := "ch1", Linear := "" }] }
    [{ Idref := "ch1", Linear := "no" }] rfl rfl rfl rfl

/-- C15, at the failing input: for an archive file that starts with the bytes of
a 7-Zip file no command is selected, and `ExtractArchive` returns no error but
panics; for a file that starts with `PK` it runs `unzip` and returns the
archive. -/
theorem extractArchive_unknown_header_panics :
    sniffCommand { b0 := 0x37, b1 := 0x7A, b2 := 0xBC, b3 := 0xAF } "book.7z" = none ∧
      ExtractArchive sevenZipEnv "book.7z" = (none, .panic) ∧
      ExtractArchive zipEnv "comic.cbz" =
        (some ⟨"comic.cbz", .ComicBook, "/tmp/bish1", ["/tmp/bish1/page1.jpg"]⟩, .nil) := by
  decide

/-- C3, at the failing input: a package descriptor with a spine and no
`manifest` element is decoded without error, the one idref of its spine is the
id of no manifest item, and `CreateOrderedBook` returns no error for it: the
lookup of the idref dereferences the nil `Manifest` pointer and panics, the
book untouched. -/
theorem createOrderedBook_no_manifest_panics :
    ExtractBookFromArchive noManifestEnv sampleArchive = (some noManifestBook, .nil) ∧
      (∀ pkg ∈ noManifestBook.Package, pkg.Manifest = none ∧
        pkg.Spine = some { Itemref := [{ Idref := "ch1", Linear := "" }] }) ∧
      CreateOrderedBook noManifestEnv rangeStored noManifestBook = (noManifestBook, .panic) := by
  decide

end Kthoom
